import Mathlib

/-
Verification of `frontend/check_model_performance.py`.

The script walks a fixed list of model directories, picks a results artifact
per directory (first listing entry containing "model_results" and ending in
".joblib"), deserializes it, scans the mapping for the sub-model with the
best f1_score (strict `>`, running best initialised to the integer 0),
prints a report, records the winner into a summary dictionary, always prints
the sorted directory listing, and finally serializes the summary as
2-space-indented JSON.

The embedding models deserialized Python data as `PyVal` (exact decimals in
place of floats), the filesystem as a partial map from directory path to a
listing plus a load oracle, and console output as the list of strings passed
to `print`.  Python's `>` and `==` on loaded data are modelled by `pyGt` and
`pyEq`; `str.format` failures and `KeyError`s surface in the same
`Except String` channel the `try/except` of the source catches.
-/

/-- A deserialized Python value as far as this script can observe it.
Numbers are exact decimals `m * 10^(-e)` (covering the ints and the printed
form of the floats the training stage stores); `bool` is kept separate
because Python treats it as numeric in comparisons and formatting. -/
inductive PyVal where
  | num  : Int → Nat → PyVal
  | bool : Bool → PyVal
  | str  : String → PyVal
  | null : PyVal
  | list : List PyVal → PyVal
  | dict : List (String × PyVal) → PyVal

/-- Dictionary lookup, i.e. `d[k]` / `k in d` on a Python dict whose keys are
strings (insertion order preserved, keys distinct). -/
def lookupA (k : String) : List (String × PyVal) → Option PyVal
  | [] => none
  | (k2, v) :: rest => if k2 = k then some v else lookupA k rest

/-- Numeric view: Python treats `bool` as the ints 0/1 wherever a number is
expected.  Returns the decimal pair `(m, e)` standing for `m * 10^(-e)`. -/
def pyNum? : PyVal → Option (Int × Nat)
  | .num m e => some (m, e)
  | .bool b => some (if b then 1 else 0, 0)
  | _ => none

/-- `a/10^ea < b/10^eb` by cross-multiplication (denominators positive). -/
def decLtB (a : Int × Nat) (b : Int × Nat) : Bool :=
  a.1 * (10 : Int) ^ b.2 < b.1 * (10 : Int) ^ a.2

/-- `a/10^ea = b/10^eb` by cross-multiplication. -/
def decEqB (a : Int × Nat) (b : Int × Nat) : Bool :=
  a.1 * (10 : Int) ^ b.2 = b.1 * (10 : Int) ^ a.2

mutual
/-- Structural size of a value, the fuel bound for the comparison helpers
(hand-rolled so that it both computes and reduces in the kernel). -/
def pySize : PyVal → Nat
  | .num _ _ => 1
  | .bool _ => 1
  | .str _ => 1
  | .null => 1
  | .list xs => 1 + pySizeL xs
  | .dict ps => 1 + pySizeD ps
termination_by structural v => v

/-- Size of a list of values. -/
def pySizeL : List PyVal → Nat
  | [] => 0
  | x :: xs => pySize x + 1 + pySizeL xs
termination_by structural l => l

/-- Size of a dict's members. -/
def pySizeD : List (String × PyVal) → Nat
  | [] => 0
  | (_, v) :: ps => pySize v + 1 + pySizeD ps
termination_by structural l => l
end

mutual
/-- Python `==` on loaded values (fuel-structural so that it computes in the
kernel; the fuel `sizeOf a + sizeOf b + 1` of the `pyEq` wrapper below always
suffices, every recursive call strictly shrinking the combined size):
numeric across num/bool, structural on strings and lists, key-set based on
dicts, `False` on mismatched kinds (Python `==` between builtin types never
raises). -/
def pyEqF : Nat → PyVal → PyVal → Bool
  | 0, _, _ => false
  | f + 1, a, b =>
    match a, b with
    | .str x, .str y => x = y
    | .null, .null => true
    | .list xs, .list ys => pyEqLF f xs ys
    | .dict xs, .dict ys => xs.length = ys.length && pyEqDF f xs ys
    | a, b =>
      match pyNum? a, pyNum? b with
      | some p, some q => decEqB p q
      | _, _ => false

/-- Elementwise equality of Python lists. -/
def pyEqLF : Nat → List PyVal → List PyVal → Bool
  | 0, _, _ => false
  | f + 1, xs, ys =>
    match xs, ys with
    | [], [] => true
    | x :: xs2, y :: ys2 => pyEqF f x y && pyEqLF f xs2 ys2
    | _, _ => false

/-- Every key of the left dict occurs in the right dict with an equal value. -/
def pyEqDF : Nat → List (String × PyVal) → List (String × PyVal) → Bool
  | 0, _, _ => false
  | f + 1, ps, ys =>
    match ps with
    | [] => true
    | (k, v) :: ps2 => pyEqFindF f k v ys && pyEqDF f ps2 ys

/-- Membership of one key/value pair in a dict, up to value equality. -/
def pyEqFindF : Nat → String → PyVal → List (String × PyVal) → Bool
  | 0, _, _, _ => false
  | f + 1, k, v, qs =>
    match qs with
    | [] => false
    | (k2, w) :: qs2 => (k = k2 && pyEqF f v w) || pyEqFindF f k v qs2
end

/-- Python `==`, with adequate fuel. -/
def pyEq (a b : PyVal) : Bool := pyEqF (pySize a + pySize b + 1) a b

mutual
/-- Python `>` on loaded values (fuel-structural as for `pyEqF`): numeric
across num/bool, lexicographic on strings (code points) and lists, and a
`TypeError` otherwise — exactly the comparisons
`metrics['f1_score'] > best_f1` can trigger. -/
def pyGtF : Nat → PyVal → PyVal → Except String Bool
  | 0, _, _ => .error "TypeError: out of fuel"
  | f + 1, a, b =>
    match a, b with
    | .str x, .str y => .ok (decide (y < x))
    | .list xs, .list ys => pyGtLF f xs ys
    | a, b =>
      match pyNum? a, pyNum? b with
      | some p, some q => .ok (decLtB q p)
      | _, _ => .error "TypeError: unorderable operand types"

/-- Python list `>`: first non-equal pair decides, longer wins on a tie. -/
def pyGtLF : Nat → List PyVal → List PyVal → Except String Bool
  | 0, _, _ => .error "TypeError: out of fuel"
  | f + 1, xs, ys =>
    match xs, ys with
    | [], [] => .ok false
    | [], _ :: _ => .ok false
    | _ :: _, [] => .ok true
    | x :: xs2, y :: ys2 => if pyEq x y then pyGtLF f xs2 ys2 else pyGtF f x y
end

/-- Python `>`, with adequate fuel. -/
def pyGt (a b : PyVal) : Except String Bool := pyGtF (pySize a + pySize b + 1) a b

/-- Whether `pat` occurs at the head of `hay` (both as character lists). -/
def leadMatch : List Char → List Char → Bool
  | _, [] => true
  | [], _ :: _ => false
  | a :: as, b :: bs => a = b && leadMatch as bs

/-- Python `sub in s` on strings: `sub` occurs somewhere in `s`. -/
def strContainsB (s sub : String) : Bool :=
  s.data.tails.any (fun t => leadMatch t sub.data)

/-- Python `s.endswith(suf)`. -/
def strEndsWithB (s suf : String) : Bool :=
  leadMatch s.data.reverse suf.data.reverse

/-- Python `path.split('/')`, structurally on the character list. -/
def splitSlash : List Char → List (List Char)
  | [] => [[]]
  | c :: rest =>
    match splitSlash rest with
    | [] => [[]]
    | g :: gs => if c = '/' then [] :: g :: gs else (c :: g) :: gs

/-- Python `path.split('/')[-1]`. -/
def lastSeg (s : String) : String :=
  String.mk ((splitSlash s.data).getLastD s.data)

/-- Decimal digits of a natural number, most significant first
(fuel-structural; the wrapper passes fuel `n + 1`, always adequate since the
argument at least halves at each step). -/
def natDigitsF : Nat → Nat → List Char
  | 0, _ => []
  | f + 1, n =>
    if n < 10 then [Char.ofNat (48 + n)]
    else natDigitsF f (n / 10) ++ [Char.ofNat (48 + n % 10)]

/-- Decimal digits, with adequate fuel. -/
def natDigits (n : Nat) : List Char := natDigitsF (n + 1) n

/-- Left-pad a digit list with zeros up to width `w`. -/
def padZeros (w : Nat) (ds : List Char) : List Char :=
  List.replicate (w - ds.length) '0' ++ ds

/-- Round `a / d` (with `d > 0`) to the nearest integer, ties to even —
the rounding `format(x, '.4f')` applies to an exact decimal. -/
def roundHE (a d : Int) : Int :=
  let q := a / d
  let r := a % d
  if 2 * r < d then q
  else if d < 2 * r then q + 1
  else if q % 2 = 0 then q else q + 1

/-- Render `m * 10^(-e)` with exactly `p` digits after the decimal point,
as Python's fixed-point format specifier does. -/
def fmtFixed (p : Nat) (m : Int) (e : Nat) : String :=
  let q := roundHE (m * (10 : Int) ^ p) ((10 : Int) ^ e)
  let n := q.natAbs
  let whole := natDigits (n / 10 ^ p)
  let frac := padZeros p (natDigits (n % 10 ^ p))
  (if m < 0 then "-" else "") ++ String.mk whole
    ++ (if p = 0 then "" else "." ++ String.mk frac)

/-- Python `format(v, '.pf')`: succeeds on numbers and bools, raises on
anything else (the `ValueError`/`TypeError` the source's f-strings can hit). -/
def formatF (p : Nat) : PyVal → Except String String
  | .num m e => .ok (fmtFixed p m e)
  | .bool b => .ok (fmtFixed p (if b then 1 else 0) 0)
  | .str _ => .error "ValueError: Unknown format code f for object of type str"
  | _ => .error "TypeError: unsupported format string passed"

/-- `v * 100` as evaluated inside the f-strings.  Only reached after
`formatF` succeeded on `v`, so only the numeric branches matter. -/
def pyMul100 : PyVal → PyVal
  | .num m e => .num (m * 100) e
  | .bool b => .num (if b then 100 else 0) 0
  | v => v

/-- `metrics.get(key, 0)` — integer 0 default. -/
def dGet (md : List (String × PyVal)) (k : String) : PyVal :=
  (lookupA k md).getD (.num 0 0)

/-- The `model_info` dict assigned when a strictly better sub-model is found:
name plus the seven metrics, each defaulted to 0 when absent. -/
def mkModelInfo (name : String) (md : List (String × PyVal)) :
    List (String × PyVal) :=
  [("model_name", .str name),
   ("accuracy", dGet md "accuracy"),
   ("precision", dGet md "precision"),
   ("recall", dGet md "recall"),
   ("f1_score", dGet md "f1_score"),
   ("roc_auc", dGet md "roc_auc"),
   ("cv_mean", dGet md "cv_mean"),
   ("cv_std", dGet md "cv_std")]

/-- The scan over `results_data.items()`: state is `(best_f1, best_model,
model_info)`, updated exactly when the entry is a dict containing
`f1_score` whose value compares strictly greater than the running best;
a comparison `TypeError` escapes to the enclosing handler. -/
def scanBest : List (String × PyVal) → PyVal → Option String →
    List (String × PyVal) →
    Except String (Option String × PyVal × List (String × PyVal))
  | [], best_f1, best_model, model_info => .ok (best_model, best_f1, model_info)
  | (name, metrics) :: rest, best_f1, best_model, model_info =>
    match metrics with
    | .dict md =>
      match lookupA "f1_score" md with
      | some v =>
        match pyGt v best_f1 with
        | .error e => .error e
        | .ok true => scanBest rest v (some name) (mkModelInfo name md)
        | .ok false => scanBest rest best_f1 best_model model_info
      | none => scanBest rest best_f1 best_model model_info
    | _ => scanBest rest best_f1 best_model model_info

/-- One metric print line, e.g.
`print(f"Accuracy: {model_info['accuracy']:.4f} ({model_info['accuracy']*100:.2f}%)")`:
a missing key raises `KeyError`, a non-numeric value raises in formatting. -/
def metricLine (label key : String) (mi : List (String × PyVal)) :
    Except String String :=
  match lookupA key mi with
  | none => .error ("KeyError: " ++ key)
  | some v =>
    match formatF 4 v with
    | .error e => .error e
    | .ok s1 =>
      match formatF 2 (pyMul100 v) with
      | .error e => .error e
      | .ok s2 => .ok (label ++ ": " ++ s1 ++ " (" ++ s2 ++ "%)")

/-- The `CV Mean: … ± …` print line. -/
def cvLine (mi : List (String × PyVal)) : Except String String :=
  match lookupA "cv_mean" mi with
  | none => .error "KeyError: cv_mean"
  | some v1 =>
    match formatF 4 v1 with
    | .error e => .error e
    | .ok s1 =>
      match lookupA "cv_std" mi with
      | none => .error "KeyError: cv_std"
      | some v2 =>
        match formatF 4 v2 with
        | .error e => .error e
        | .ok s2 => .ok ("CV Mean: " ++ s1 ++ " ± " ++ s2)

/-- The six metric `print` calls issued after `Best Model:`, in source order. -/
def printBlock (mi : List (String × PyVal)) : List (Except String String) :=
  [metricLine "Accuracy" "accuracy" mi,
   metricLine "Precision" "precision" mi,
   metricLine "Recall" "recall" mi,
   metricLine "F1-Score" "f1_score" mi,
   metricLine "ROC AUC" "roc_auc" mi,
   cvLine mi]

/-- Runs a sequence of prints left to right, keeping the output that made it
to the console before the first raising print (Python prints eagerly). -/
def emitLines : List (Except String String) → List String × Except String Unit
  | [] => ([], .ok ())
  | x :: xs =>
    match x with
    | .error e => ([], .error e)
    | .ok s =>
      let (ls, r) := emitLines xs
      (s :: ls, r)

/-- One on-disk directory: the entries `os.listdir` returns (in filesystem
order) and what `joblib.load` yields for each contained path. -/
structure Dir where
  listing : List String
  load : String → Except String PyVal

/-- The filesystem: which of the configured directories exist, and what they
hold.  `os.path.exists` on a listed file is true. -/
def FSModel : Type := String → Option Dir

/-- The `for file in os.listdir(...)` loop with `break`: first entry whose
name contains "model_results" and ends with ".joblib". -/
def findResults (listing : List String) : Option String :=
  listing.find? (fun f => strContainsB f "model_results" && strEndsWithB f ".joblib")

/-- The always-printed tail of a directory section: `Files in <dir>:`
followed by the lexicographically sorted entries. -/
def listingSection (model_dir : String) (listing : List String) : List String :=
  ("\nFiles in " ++ model_dir ++ ":")
    :: (List.insertionSort (· ≤ ·) listing).map (fun f => "  - " ++ f)

/-- The body of the `try:` block once a results file was found, as the lines
printed so far plus either the recorded `model_info` (or `none` when the
payload is not a dict) or the caught exception. -/
def tryBody (model_name results_file : String) (d : Dir) :
    List String × Except String (Option (List (String × PyVal))) :=
  match d.load results_file with
  | .error e => ([], .error e)
  | .ok results_data =>
    let header := "\n=== " ++ model_name.toUpper ++ " Model Performance ==="
    match results_data with
    | .dict entries =>
      match scanBest entries (.num 0 0) none [] with
      | .error e => ([header], .error e)
      | .ok (best_model, _, model_info) =>
        let bmLine := "Best Model: " ++ best_model.getD "None"
        let (ls, r) := emitLines (printBlock model_info)
        match r with
        | .error e => ([header, bmLine] ++ ls, .error e)
        | .ok _ => ([header, bmLine] ++ ls, .ok (some model_info))
    | _ => ([header], .ok none)

/-- One iteration of the `for model_dir in model_dirs:` loop: the printed
lines and the summary entry it contributes (if any). -/
def dirReport (fs : FSModel) (model_dir : String) :
    List String × Option (String × List (String × PyVal)) :=
  match fs model_dir with
  | none => ([], none)
  | some d =>
    let model_name := lastSeg model_dir
    let tried : List String × Option (List (String × PyVal)) :=
      match findResults d.listing with
      | none => ([], none)
      | some file =>
        let results_file := model_dir ++ "/" ++ file
        match tryBody model_name results_file d with
        | (ls, .ok entry) => (ls, entry)
        | (ls, .error e) =>
          (ls ++ ["Error loading " ++ results_file ++ ": " ++ e], none)
    (tried.1 ++ listingSection model_dir d.listing,
     tried.2.map (fun mi => (model_name, mi)))

/-- The hardcoded directory list of the script. -/
def model_dirs : List String := ["models/k2", "models/kepler", "models/tess"]

/-- The main loop over a list of directories: concatenated console lines and
the summary dict in insertion order. -/
def runDirs (fs : FSModel) : List String →
    List String × List (String × List (String × PyVal))
  | [] => ([], [])
  | d :: rest =>
    let (ls, ent) := dirReport fs d
    let (ls2, sum2) := runDirs fs rest
    (ls ++ ls2, ent.toList ++ sum2)

/-- `n` spaces, for the 2-space indentation `json.dump(..., indent=2)` emits. -/
def spacesL (n : Nat) : List Char := List.replicate n ' '

/-- Lower-case hexadecimal digit. -/
def hexDigit (n : Nat) : Char :=
  if n < 10 then Char.ofNat (48 + n) else Char.ofNat (87 + n)

/-- JSON string escaping as the serializer applies it per character. -/
def escChar (c : Char) : List Char :=
  if c = '"' then ['\\', '"']
  else if c = '\\' then ['\\', '\\']
  else if c = '\n' then ['\\', 'n']
  else if c = '\t' then ['\\', 't']
  else if c = '\x0d' then ['\\', 'r']
  else if c = '\x08' then ['\\', 'b']
  else if c = '\x0c' then ['\\', 'f']
  else if c.toNat < 32 then
    ['\\', 'u', '0', '0', hexDigit (c.toNat / 16), hexDigit (c.toNat % 16)]
  else [c]

/-- Escape a whole character sequence. -/
def escList (cs : List Char) : List Char := (cs.map escChar).flatten

/-- A quoted, escaped JSON string literal. -/
def quoteStr (s : String) : List Char := '"' :: (escList s.data ++ ['"'])

/-- A JSON number literal for the exact decimal `m * 10^(-e)`. -/
def encNum (m : Int) (e : Nat) : List Char :=
  (if m < 0 then ['-'] else []) ++
  (if e = 0 then natDigits m.natAbs
   else natDigits (m.natAbs / 10 ^ e) ++ '.' :: padZeros e (natDigits (m.natAbs % 10 ^ e)))

mutual
/-- Serialize a value at indentation level `ind`, following the layout of
`json.dump` with `indent=2` (non-ASCII characters are written literally;
this does not affect the parse-of-encode relation verified below). -/
def encVal (ind : Nat) : PyVal → List Char
  | .null => "null".data
  | .bool true => "true".data
  | .bool false => "false".data
  | .num m e => encNum m e
  | .str s => quoteStr s
  | .list [] => ['[', ']']
  | .list (x :: xs) =>
    '[' :: '\n' :: (encItems (ind + 2) x xs ++ '\n' :: (spacesL ind ++ [']']))
  | .dict [] => ['\x7b', '\x7d']
  | .dict (p :: ps) =>
    '\x7b' :: '\n' :: (encPairs (ind + 2) p ps ++ '\n' :: (spacesL ind ++ ['\x7d']))
termination_by v => sizeOf v

/-- Indented, comma/newline-separated array elements. -/
def encItems (ind : Nat) : PyVal → List PyVal → List Char
  | x, [] => spacesL ind ++ encVal ind x
  | x, y :: ys => spacesL ind ++ encVal ind x ++ ',' :: '\n' :: encItems ind y ys
termination_by x xs => sizeOf x + sizeOf xs

/-- Indented, comma/newline-separated object members (`": "` key separator). -/
def encPairs (ind : Nat) : (String × PyVal) → List (String × PyVal) → List Char
  | (k, v), [] => spacesL ind ++ quoteStr k ++ ':' :: ' ' :: encVal ind v
  | (k, v), q :: qs =>
    spacesL ind ++ quoteStr k ++ ':' :: ' ' :: encVal ind v ++ ',' :: '\n' :: encPairs ind q qs
termination_by p ps => sizeOf p + sizeOf ps
end

/-- The document written to `model_performance_summary.json`. -/
def encTop (v : PyVal) : String := String.mk (encVal 0 v)

/-- JSON whitespace. -/
def isWsC (c : Char) : Bool := c = ' ' || c = '\n' || c = '\t' || c = '\x0d'

/-- Drop leading whitespace. -/
def skipWs : List Char → List Char
  | [] => []
  | c :: cs => if isWsC c then skipWs cs else c :: cs

/-- ASCII decimal digit test. -/
def isDigC (c : Char) : Bool := 48 ≤ c.toNat && c.toNat ≤ 57

/-- Value of an ASCII digit. -/
def digVal (c : Char) : Nat := c.toNat - 48

/-- Split off the maximal run of leading digits. -/
def grabDigits : List Char → List Char × List Char
  | [] => ([], [])
  | c :: cs =>
    if isDigC c then
      let (ds, r) := grabDigits cs
      (c :: ds, r)
    else ([], c :: cs)

/-- Numeric value of a digit run. -/
def digitsVal (ds : List Char) : Nat :=
  ds.foldl (fun a c => a * 10 + digVal c) 0

/-- Hexadecimal digit value (either case). -/
def hexUn (c : Char) : Option Nat :=
  if 48 ≤ c.toNat && c.toNat ≤ 57 then some (c.toNat - 48)
  else if 97 ≤ c.toNat && c.toNat ≤ 102 then some (c.toNat - 87)
  else if 65 ≤ c.toNat && c.toNat ≤ 70 then some (c.toNat - 55)
  else none

/-- Resolve a single-character escape. -/
def unescC (k : Char) : Option Char :=
  if k = '"' then some '"'
  else if k = '\\' then some '\\'
  else if k = '/' then some '/'
  else if k = 'b' then some '\x08'
  else if k = 'f' then some '\x0c'
  else if k = 'n' then some '\n'
  else if k = 'r' then some '\x0d'
  else if k = 't' then some '\t'
  else none

/-- Read a string body up to the closing quote, resolving escapes. -/
def strBody : List Char → Option (List Char × List Char)
  | [] => none
  | c :: cs =>
    if c = '"' then some ([], cs)
    else if c = '\\' then
      match cs with
      | [] => none
      | k :: cs2 =>
        if k = 'u' then
          match cs2 with
          | h1 :: h2 :: h3 :: h4 :: cs3 =>
            match hexUn h1, hexUn h2, hexUn h3, hexUn h4 with
            | some a, some b, some c2, some d =>
              (strBody cs3).map
                (fun pr => (Char.ofNat (((a * 16 + b) * 16 + c2) * 16 + d) :: pr.1, pr.2))
            | _, _, _, _ => none
          | _ => none
        else
          match unescC k with
          | some ch => (strBody cs2).map (fun pr => (ch :: pr.1, pr.2))
          | none => none
    else (strBody cs).map (fun pr => (c :: pr.1, pr.2))

/-- Signed decimal from parsed digits. -/
def mkNumPV (neg : Bool) (n e : Nat) : PyVal :=
  .num (if neg then -(n : Int) else (n : Int)) e

/-- Read a number literal: integer digits, optional fraction. -/
def numBody (neg : Bool) (cs : List Char) : Option (PyVal × List Char) :=
  match cs with
  | [] => none
  | c :: _ =>
    if isDigC c then
      let (ds, r1) := grabDigits cs
      match r1 with
      | [] => some (mkNumPV neg (digitsVal ds) 0, [])
      | c1 :: r2 =>
        if c1 = '.' then
          match r2 with
          | [] => none
          | c2 :: _ =>
            if isDigC c2 then
              let (fds, r3) := grabDigits r2
              some (mkNumPV neg (digitsVal ds * 10 ^ fds.length + digitsVal fds) fds.length, r3)
            else none
        else some (mkNumPV neg (digitsVal ds) 0, c1 :: r2)
    else none

/-- Match an exact literal continuation. -/
def expectL : List Char → List Char → Option (List Char)
  | [], cs => some cs
  | _ :: _, [] => none
  | l :: ls, c :: cs => if c = l then expectL ls cs else none

mutual
/-- Read one JSON value (fuel-bounded recursion). -/
def jVal : Nat → List Char → Option (PyVal × List Char)
  | 0, _ => none
  | f + 1, cs =>
    match skipWs cs with
    | [] => none
    | c :: r =>
      if c = 'n' then (expectL ['u', 'l', 'l'] r).map (fun r2 => (.null, r2))
      else if c = 't' then (expectL ['r', 'u', 'e'] r).map (fun r2 => (.bool true, r2))
      else if c = 'f' then (expectL ['a', 'l', 's', 'e'] r).map (fun r2 => (.bool false, r2))
      else if c = '"' then (strBody r).map (fun pr => (.str (String.mk pr.1), pr.2))
      else if c = '[' then jArr f r
      else if c = '\x7b' then jObj f r
      else if c = '-' then numBody true r
      else if isDigC c then numBody false (c :: r)
      else none

/-- Read an array after its opening bracket. -/
def jArr : Nat → List Char → Option (PyVal × List Char)
  | 0, _ => none
  | f + 1, cs =>
    match skipWs cs with
    | [] => none
    | c :: r =>
      if c = ']' then some (.list [], r)
      else
        match jVal f (c :: r) with
        | some (v, r2) =>
          match jArrMore f r2 with
          | some (vs, r3) => some (.list (v :: vs), r3)
          | none => none
        | none => none

/-- Read the `, value …` continuation of an array. -/
def jArrMore : Nat → List Char → Option (List PyVal × List Char)
  | 0, _ => none
  | f + 1, cs =>
    match skipWs cs with
    | [] => none
    | c :: r =>
      if c = ']' then some ([], r)
      else if c = ',' then
        match jVal f r with
        | some (v, r2) =>
          match jArrMore f r2 with
          | some (vs, r3) => some (v :: vs, r3)
          | none => none
        | none => none
      else none

/-- Read an object after its opening brace. -/
def jObj : Nat → List Char → Option (PyVal × List Char)
  | 0, _ => none
  | f + 1, cs =>
    match skipWs cs with
    | [] => none
    | c :: r =>
      if c = '\x7d' then some (.dict [], r)
      else if c = '"' then
        match jPair f r with
        | some (kv, r2) =>
          match jObjMore f r2 with
          | some (ps, r3) => some (.dict (kv :: ps), r3)
          | none => none
        | none => none
      else none

/-- Read a `key: value` member, starting after the key's opening quote. -/
def jPair : Nat → List Char → Option ((String × PyVal) × List Char)
  | 0, _ => none
  | f + 1, cs =>
    match strBody cs with
    | some (k, r1) =>
      match skipWs r1 with
      | [] => none
      | c :: r2 =>
        if c = ':' then
          match jVal f r2 with
          | some (v, r3) => some ((String.mk k, v), r3)
          | none => none
        else none
    | none => none

/-- Read the `, "key": value …` continuation of an object. -/
def jObjMore : Nat → List Char → Option (List (String × PyVal) × List Char)
  | 0, _ => none
  | f + 1, cs =>
    match skipWs cs with
    | [] => none
    | c :: r =>
      if c = '\x7d' then some ([], r)
      else if c = ',' then
        match skipWs r with
        | [] => none
        | c2 :: r2 =>
          if c2 = '"' then
            match jPair f r2 with
            | some (kv, r3) =>
              match jObjMore f r3 with
              | some (ps, r4) => some (kv :: ps, r4)
              | none => none
            | none => none
          else none
      else none
end

/-- Parse a complete JSON document (as `json.load` of the summary file). -/
def jsonParse (s : String) : Option PyVal :=
  match jVal (s.data.length + 1) s.data with
  | some (v, r) => if skipWs r = [] then some v else none
  | none => none

/-- The summary dict as a serializable value. -/
def summaryVal (s : List (String × List (String × PyVal))) : PyVal :=
  .dict (s.map (fun p => (p.1, .dict p.2)))

/-- Everything one run produces: console lines, the returned summary mapping,
and the bytes written to `model_performance_summary.json`. -/
structure RunResult where
  lines : List String
  summary : List (String × List (String × PyVal))
  fileContent : String

/-- The whole script: loop over the three configured directories, then write
the summary JSON and print the confirmation line. -/
def check_model_performance (fs : FSModel) : RunResult :=
  let r := runDirs fs model_dirs
  { lines := r.1 ++ ["\n=== Summary saved to model_performance_summary.json ==="],
    summary := r.2,
    fileContent := encTop (summaryVal r.2) }

/-- An entry takes part in the scan when its value is a dict containing
`f1_score`; yields that dict together with the `f1_score` value. -/
def qualMd : PyVal → Option (List (String × PyVal) × PyVal)
  | .dict md => (lookupA "f1_score" md).map (fun f => (md, f))
  | _ => none

/-- The `f1_score` values of the participating entries, in iteration order. -/
def f1Values (entries : List (String × PyVal)) : List PyVal :=
  entries.filterMap (fun p => (qualMd p.2).map (fun q => q.2))

/-- Strict numeric exceeding, the order the selection is phrased in. -/
def beats (g f : PyVal) : Bool :=
  match pyNum? g, pyNum? f with
  | some a, some b => decLtB b a
  | _, _ => false

/-- Best-model selection in the specification's words: the sub-model entry
with the maximum f1_score seen while scanning in iteration order, ties
keeping the first maximum encountered — i.e. the first participating entry
that no later participating entry strictly exceeds. -/
def specBest : List (String × PyVal) → Option (String × List (String × PyVal))
  | [] => none
  | (n, v) :: rest =>
    match qualMd v with
    | some (md, f) =>
      if (f1Values rest).all (fun g => !beats g f) then some (n, md)
      else specBest rest
    | none => specBest rest

/-- All participating `f1_score` values are numbers (num or bool). -/
def allF1Numeric (entries : List (String × PyVal)) : Bool :=
  (f1Values entries).all (fun f => (pyNum? f).isSome)

/-- A numeric value strictly greater than zero. -/
def posNumB (v : PyVal) : Bool :=
  match pyNum? v with
  | some p => decide (0 < p.1)
  | none => false

/-- A numeric value less than or equal to zero. -/
def nonPosNumB (v : PyVal) : Bool :=
  match pyNum? v with
  | some p => decide (p.1 ≤ 0)
  | none => false

/-- Whether fixed-point formatting succeeds on this value. -/
def fmtOKB (v : PyVal) : Bool :=
  match formatF 4 v with
  | .ok _ => true
  | .error _ => false

/-- The seven optional metric fields. -/
def metricKeys : List String :=
  ["accuracy", "precision", "recall", "f1_score", "roc_auc", "cv_mean", "cv_std"]

/-- All seven metric values of a winner print without raising, i.e. the
entry actually reaches `results[model_name] = model_info`. -/
def metricsOKB (md : List (String × PyVal)) : Bool :=
  metricKeys.all (fun k => fmtOKB (dGet md k))

/-- The exact key list of every recorded summary entry. -/
def infoKeys : List String :=
  ["model_name", "accuracy", "precision", "recall", "f1_score", "roc_auc",
   "cv_mean", "cv_std"]

/-- The rational a decimal pair denotes (proof-side only). -/
def qOfDec (p : Int × Nat) : ℚ := (p.1 : ℚ) / (10 : ℚ) ^ p.2

/-- What follows one array element in the serialized form: either the
separator and the next element, or the closing line. -/
def sepItems (ind ind0 : Nat) (ys : List PyVal) (rest : List Char) : List Char :=
  match ys with
  | [] => '\n' :: (spacesL ind0 ++ ']' :: rest)
  | y :: ys2 => ',' :: '\n' :: (spacesL ind ++ encVal ind y ++ sepItems ind ind0 ys2 rest)

/-- What follows one object member in the serialized form. -/
def sepPairs (ind ind0 : Nat) (ps : List (String × PyVal)) (rest : List Char) : List Char :=
  match ps with
  | [] => '\n' :: (spacesL ind0 ++ '\x7d' :: rest)
  | (k, v) :: ps2 =>
    ',' :: '\n' :: (spacesL ind ++ quoteStr k ++ ':' :: ' ' :: encVal ind v
      ++ sepPairs ind ind0 ps2 rest)

/-- A directory whose every file deserializes to `v`. -/
def dirWith (listing : List String) (v : PyVal) : Dir :=
  { listing := listing, load := fun _ => .ok v }

/-- A filesystem holding exactly one configured directory, `models/k2`. -/
def fsK2 (d : Dir) : FSModel :=
  fun p => if p = "models/k2" then some d else none

/-- The specification's own worked example (§8) as an artifact. -/
def resExample : PyVal :=
  .dict [("A", .dict [("f1_score", .num 8 1), ("accuracy", .num 9 1)]),
         ("B", .dict [("f1_score", .num 95 2), ("accuracy", .num 85 2)])]

/-- Fixture: the worked example on disk. -/
def fsExample : FSModel :=
  fsK2 (dirWith ["model_results.joblib", "scaler.pkl"] resExample)

/-- Fixture: a mapping in which no entry carries `f1_score`. -/
def fsNoF1 : FSModel :=
  fsK2 (dirWith ["model_results.joblib"] (.dict [("A", .dict [("accuracy", .num 9 1)])]))

/-- Fixture: one sub-model whose `f1_score` is exactly 0. -/
def fsZero : FSModel :=
  fsK2 (dirWith ["model_results.joblib"] (.dict [("A", .dict [("f1_score", .num 0 0)])]))

/-- Fixture: deserialization raises. -/
def fsErr : FSModel :=
  fsK2 { listing := ["model_results.joblib"],
         load := fun _ => .error "invalid load key, bad pickle data" }

/-- Fixture: the artifact deserializes to a plain list. -/
def fsList : FSModel :=
  fsK2 (dirWith ["model_results.joblib"] (.list [.num 1 0, .num 2 0]))

/-- Fixture: no configured directory exists. -/
def fsAbsent : FSModel := fun _ => none

/-- Fixture: an existing directory with an unsorted listing and no artifact. -/
def fsUnsorted : FSModel :=
  fsK2 { listing := ["b.txt", "a.txt"], load := fun _ => .error "unused" }

/-- Fixture: a winner carrying only `f1_score`, all other metrics absent. -/
def fsOnlyF1 : FSModel :=
  fsK2 (dirWith ["model_results.joblib"] (.dict [("A", .dict [("f1_score", .num 5 1)])]))

/-- The rational a value denotes, 0 on non-numerics (proof-side only). -/
def qValOr0 (v : PyVal) : ℚ := ((pyNum? v).map qOfDec).getD 0

/-- Association lookup on the summary mapping. -/
def lookupS (k : String) : List (String × List (String × PyVal)) →
    Option (List (String × PyVal))
  | [] => none
  | (k2, v) :: rest => if k2 = k then some v else lookupS k rest

/-! ### Numeric comparison bridge -/

theorem qOfDec_lt_iff (p q : Int × Nat) :
    qOfDec p < qOfDec q ↔ p.1 * (10 : Int) ^ q.2 < q.1 * (10 : Int) ^ p.2 := by
  unfold qOfDec
  rw [div_lt_div_iff₀ (by positivity) (by positivity)]
  constructor
  · intro h; exact_mod_cast h
  · intro h; exact_mod_cast h

theorem decLtB_iff (p q : Int × Nat) : decLtB p q = true ↔ qOfDec p < qOfDec q := by
  rw [qOfDec_lt_iff]; simp [decLtB]

theorem pyGtF_succ (f : Nat) (a b : PyVal) :
    pyGtF (f + 1) a b =
      (match a, b with
       | .str x, .str y => .ok (decide (y < x))
       | .list xs, .list ys => pyGtLF f xs ys
       | a, b =>
         match pyNum? a, pyNum? b with
         | some p, some q => .ok (decLtB q p)
         | _, _ => .error "TypeError: unorderable operand types") := rfl

theorem pyGt_num {v w : PyVal} {p q : Int × Nat}
    (hv : pyNum? v = some p) (hw : pyNum? w = some q) :
    pyGt v w = .ok (decLtB q p) := by
  unfold pyGt
  rw [pyGtF_succ]
  cases v <;> cases w <;> simp_all [pyNum?]

theorem beats_true_num {g f : PyVal} (h : beats g f = true) :
    (pyNum? g).isSome ∧ (pyNum? f).isSome := by
  unfold beats at h
  cases hg : pyNum? g <;> cases hf : pyNum? f <;> simp_all

theorem beats_iff_q {g f : PyVal} (hg : (pyNum? g).isSome) (hf : (pyNum? f).isSome) :
    (beats g f = true ↔ qValOr0 f < qValOr0 g) := by
  obtain ⟨a, ha⟩ := Option.isSome_iff_exists.mp hg
  obtain ⟨b, hb⟩ := Option.isSome_iff_exists.mp hf
  unfold beats qValOr0
  rw [ha, hb, decLtB_iff]
  simp

theorem beats_self (f : PyVal) : beats f f = false := by
  unfold beats
  cases h : pyNum? f <;> simp [decLtB]

theorem pyGt_eq_beats {g f : PyVal} (hg : (pyNum? g).isSome) (hf : (pyNum? f).isSome) :
    pyGt g f = .ok (beats g f) := by
  obtain ⟨a, ha⟩ := Option.isSome_iff_exists.mp hg
  obtain ⟨b, hb⟩ := Option.isSome_iff_exists.mp hf
  rw [pyGt_num ha hb]
  simp [beats, ha, hb]

/-! ### Selection lemmas -/

theorem qualMd_inv {v : PyVal} {md : List (String × PyVal)} {f : PyVal}
    (h : qualMd v = some (md, f)) :
    v = .dict md ∧ lookupA "f1_score" md = some f := by
  cases v with
  | dict md2 =>
    simp only [qualMd] at h
    rcases Option.map_eq_some'.mp h with ⟨a, ha, hpair⟩
    obtain ⟨rfl, rfl⟩ := Prod.mk.inj hpair
    exact ⟨rfl, ha⟩
  | num m e => simp [qualMd] at h
  | bool b => simp [qualMd] at h
  | str s => simp [qualMd] at h
  | null => simp [qualMd] at h
  | list l => simp [qualMd] at h

theorem qualMd_none_dict {md : List (String × PyVal)}
    (h : qualMd (.dict md) = none) : lookupA "f1_score" md = none := by
  simp only [qualMd] at h
  exact Option.map_eq_none.mp h

theorem f1Values_cons_qual {n : String} {v : PyVal} {md f} (rest : List (String × PyVal))
    (h : qualMd v = some (md, f)) :
    f1Values ((n, v) :: rest) = f :: f1Values rest := by
  simp [f1Values, h]

theorem f1Values_cons_unqual {n : String} {v : PyVal} (rest : List (String × PyVal))
    (h : qualMd v = none) :
    f1Values ((n, v) :: rest) = f1Values rest := by
  simp [f1Values, h]

theorem specBest_cons_qual {n0 : String} {v0 : PyVal} {md0 f0}
    (rest : List (String × PyVal)) (hq : qualMd v0 = some (md0, f0)) :
    specBest ((n0, v0) :: rest) =
      if (f1Values rest).all (fun g => !beats g f0) then some (n0, md0)
      else specBest rest := by
  rw [specBest, hq]

theorem specBest_cons_unqual {n0 : String} {v0 : PyVal}
    (rest : List (String × PyVal)) (hq : qualMd v0 = none) :
    specBest ((n0, v0) :: rest) = specBest rest := by
  rw [specBest, hq]

theorem allF1_cons_qual {n0 : String} {v0 : PyVal} {md0 f0}
    {rest : List (String × PyVal)} (hq : qualMd v0 = some (md0, f0))
    (hAll : allF1Numeric ((n0, v0) :: rest) = true) :
    (pyNum? f0).isSome = true ∧ allF1Numeric rest = true := by
  unfold allF1Numeric at *
  rw [f1Values_cons_qual rest hq] at hAll
  simpa using hAll

theorem allF1_cons_unqual {n0 : String} {v0 : PyVal}
    {rest : List (String × PyVal)} (hq : qualMd v0 = none)
    (hAll : allF1Numeric ((n0, v0) :: rest) = true) :
    allF1Numeric rest = true := by
  unfold allF1Numeric at *
  rwa [f1Values_cons_unqual rest hq] at hAll

theorem dGet_of_lookup {md : List (String × PyVal)} {k : String} {f : PyVal}
    (h : lookupA k md = some f) : dGet md k = f := by
  simp [dGet, h]

theorem specBest_f1_mem {entries : List (String × PyVal)} {n md}
    (h : specBest entries = some (n, md)) :
    dGet md "f1_score" ∈ f1Values entries := by
  induction entries with
  | nil => simp [specBest] at h
  | cons p rest ih =>
    obtain ⟨n0, v0⟩ := p
    cases hq : qualMd v0 with
    | none =>
      rw [specBest_cons_unqual rest hq] at h
      rw [f1Values_cons_unqual rest hq]
      exact ih h
    | some q =>
      obtain ⟨md0, f0⟩ := q
      rw [specBest_cons_qual rest hq] at h
      rw [f1Values_cons_qual rest hq]
      by_cases hall : (f1Values rest).all (fun g => !beats g f0)
      · rw [if_pos hall] at h
        injection h with h2
        obtain ⟨rfl, rfl⟩ := Prod.mk.inj h2
        rw [dGet_of_lookup (qualMd_inv hq).2]
        exact List.mem_cons_self _ _
      · rw [if_neg hall] at h
        exact List.mem_cons_of_mem _ (ih h)

theorem specBest_isSome {entries : List (String × PyVal)}
    (h : f1Values entries ≠ []) : ∃ n md, specBest entries = some (n, md) := by
  induction entries with
  | nil => simp [f1Values] at h
  | cons p rest ih =>
    obtain ⟨n0, v0⟩ := p
    cases hq : qualMd v0 with
    | none =>
      rw [f1Values_cons_unqual rest hq] at h
      obtain ⟨n2, md2, h2⟩ := ih h
      exact ⟨n2, md2, by rw [specBest_cons_unqual rest hq]; exact h2⟩
    | some q =>
      obtain ⟨md0, f0⟩ := q
      by_cases hall : (f1Values rest).all (fun g => !beats g f0)
      · exact ⟨n0, md0, by rw [specBest_cons_qual rest hq, if_pos hall]⟩
      · have hne : f1Values rest ≠ [] := by
          intro hnil; rw [hnil] at hall; exact hall (by simp)
        obtain ⟨n2, md2, h2⟩ := ih hne
        exact ⟨n2, md2, by rw [specBest_cons_qual rest hq, if_neg hall]; exact h2⟩

theorem allF1_num {entries : List (String × PyVal)} (hAll : allF1Numeric entries = true)
    {g : PyVal} (hg : g ∈ f1Values entries) : (pyNum? g).isSome := by
  unfold allF1Numeric at hAll
  exact List.all_eq_true.mp hAll g hg

theorem specBest_max {entries : List (String × PyVal)}
    (hAll : allF1Numeric entries = true) {n md}
    (h : specBest entries = some (n, md)) :
    ∀ g ∈ f1Values entries, beats g (dGet md "f1_score") = false := by
  induction entries with
  | nil => simp [specBest] at h
  | cons p rest ih =>
    obtain ⟨n0, v0⟩ := p
    cases hq : qualMd v0 with
    | none =>
      rw [specBest_cons_unqual rest hq] at h
      intro g hg
      rw [f1Values_cons_unqual rest hq] at hg
      exact ih (allF1_cons_unqual hq hAll) h g hg
    | some q =>
      obtain ⟨md0, f0⟩ := q
      rw [specBest_cons_qual rest hq] at h
      obtain ⟨hf0, hAllrest⟩ := allF1_cons_qual hq hAll
      by_cases hall : (f1Values rest).all (fun g => !beats g f0)
      · rw [if_pos hall] at h
        injection h with h2
        obtain ⟨rfl, rfl⟩ := Prod.mk.inj h2
        rw [dGet_of_lookup (qualMd_inv hq).2]
        intro g hg
        rw [f1Values_cons_qual rest hq] at hg
        rcases List.mem_cons.mp hg with rfl | hg2
        · exact beats_self g
        · simpa using List.all_eq_true.mp hall g hg2
      · rw [if_neg hall] at h
        have hmax := ih hAllrest h
        intro g hg
        rw [f1Values_cons_qual rest hq] at hg
        rcases List.mem_cons.mp hg with rfl | hg2
        · have hex : ∃ g0 ∈ f1Values rest, beats g0 g = true := by
            by_contra hno
            push_neg at hno
            exact hall (List.all_eq_true.mpr fun g0 hg0 => by simp [hno g0 hg0])
          obtain ⟨g0, hg0mem, hg0⟩ := hex
          have hbest_mem := specBest_f1_mem h
          have hbest_num : (pyNum? (dGet md "f1_score")).isSome :=
            allF1_num hAllrest hbest_mem
          have hg0_num : (pyNum? g0).isSome := (beats_true_num hg0).1
          have hg_num : (pyNum? g).isSome := (beats_true_num hg0).2
          have h1 : qValOr0 g < qValOr0 g0 := (beats_iff_q hg0_num hg_num).mp hg0
          have h2 : ¬ qValOr0 (dGet md "f1_score") < qValOr0 g0 := by
            intro hlt
            have hb := (beats_iff_q hg0_num hbest_num).mpr hlt
            rw [hmax g0 hg0mem] at hb
            exact absurd hb (by simp)
          have h3 : ¬ qValOr0 (dGet md "f1_score") < qValOr0 g := by
            intro hlt; exact h2 (lt_trans hlt h1)
          exact (Bool.not_eq_true _).mp fun hb =>
            h3 ((beats_iff_q hg_num hbest_num).mp hb)
        · exact hmax g hg2

theorem scanBest_cons_qual {n0 : String} {v0 : PyVal} {md0 f0}
    {rest : List (String × PyVal)} {cur : PyVal} {bm : Option String}
    {mi : List (String × PyVal)} (hq : qualMd v0 = some (md0, f0)) :
    scanBest ((n0, v0) :: rest) cur bm mi =
      (match pyGt f0 cur with
       | .error e => .error e
       | .ok true => scanBest rest f0 (some n0) (mkModelInfo n0 md0)
       | .ok false => scanBest rest cur bm mi) := by
  obtain ⟨rfl, hl⟩ := qualMd_inv hq
  rw [scanBest, hl]

theorem scanBest_cons_unqual {n0 : String} {v0 : PyVal}
    {rest : List (String × PyVal)} {cur : PyVal} {bm : Option String}
    {mi : List (String × PyVal)} (hq : qualMd v0 = none) :
    scanBest ((n0, v0) :: rest) cur bm mi = scanBest rest cur bm mi := by
  cases v0 with
  | dict md => rw [scanBest, qualMd_none_dict hq]
  | num m e => rw [scanBest]; intro _ h; exact PyVal.noConfusion h
  | bool b => rw [scanBest]; intro _ h; exact PyVal.noConfusion h
  | str s => rw [scanBest]; intro _ h; exact PyVal.noConfusion h
  | null => rw [scanBest]; intro _ h; exact PyVal.noConfusion h
  | list l => rw [scanBest]; intro _ h; exact PyVal.noConfusion h

theorem scanBest_spec (entries : List (String × PyVal)) :
    ∀ (cur : PyVal) (bm : Option String) (mi : List (String × PyVal)),
    allF1Numeric entries = true → (pyNum? cur).isSome →
    scanBest entries cur bm mi =
      (match specBest entries with
       | some (n, md) =>
         if beats (dGet md "f1_score") cur
         then .ok (some n, dGet md "f1_score", mkModelInfo n md)
         else .ok (bm, cur, mi)
       | none => .ok (bm, cur, mi)) := by
  induction entries with
  | nil => intro cur bm mi _ _; simp [scanBest, specBest]
  | cons p rest ih =>
    intro cur bm mi hAll hcur
    obtain ⟨n0, v0⟩ := p
    cases hq : qualMd v0 with
    | none =>
      rw [scanBest_cons_unqual hq, specBest_cons_unqual rest hq]
      exact ih cur bm mi (allF1_cons_unqual hq hAll) hcur
    | some q =>
      obtain ⟨md0, f0⟩ := q
      obtain ⟨hf0, hAllrest⟩ := allF1_cons_qual hq hAll
      have hf1get : dGet md0 "f1_score" = f0 := dGet_of_lookup (qualMd_inv hq).2
      rw [scanBest_cons_qual hq, pyGt_eq_beats hf0 hcur, specBest_cons_qual rest hq]
      by_cases hall : (f1Values rest).all (fun g => !beats g f0)
      · rw [if_pos hall]
        by_cases hb : beats f0 cur
        · rw [hb]
          dsimp only
          rw [ih f0 (some n0) (mkModelInfo n0 md0) hAllrest hf0, hf1get, if_pos hb]
          cases hsb : specBest rest with
          | none => dsimp only
          | some q2 =>
            obtain ⟨n2, md2⟩ := q2
            have hmem := specBest_f1_mem hsb
            have hfalse : beats (dGet md2 "f1_score") f0 = false := by
              simpa using List.all_eq_true.mp hall _ hmem
            dsimp only
            rw [if_neg (by rw [hfalse]; exact Bool.false_ne_true)]
        · have hbf : beats f0 cur = false := by
            rwa [Bool.not_eq_true] at hb
          rw [hbf]
          dsimp only
          rw [ih cur bm mi hAllrest hcur, hf1get, if_neg hb]
          cases hsb : specBest rest with
          | none => dsimp only
          | some q2 =>
            obtain ⟨n2, md2⟩ := q2
            have hmem := specBest_f1_mem hsb
            have hmd2num := allF1_num hAllrest hmem
            have hfalse : beats (dGet md2 "f1_score") f0 = false := by
              simpa using List.all_eq_true.mp hall _ hmem
            have hle1 : qValOr0 (dGet md2 "f1_score") ≤ qValOr0 f0 :=
              le_of_not_lt fun hlt => by
                have := (beats_iff_q hmd2num hf0).mpr hlt
                rw [hfalse] at this
                exact absurd this (by simp)
            have hle2 : qValOr0 f0 ≤ qValOr0 cur :=
              le_of_not_lt fun hlt => by
                have := (beats_iff_q hf0 hcur).mpr hlt
                rw [hbf] at this
                exact absurd this (by simp)
            have hc : beats (dGet md2 "f1_score") cur = false := by
              refine (Bool.not_eq_true _).mp fun hbt => ?_
              have := (beats_iff_q hmd2num hcur).mp hbt
              exact absurd this (not_lt.mpr (le_trans hle1 hle2))
            dsimp only
            rw [if_neg (by rw [hc]; exact Bool.false_ne_true)]
      · rw [if_neg hall]
        have hex : ∃ g0 ∈ f1Values rest, beats g0 f0 = true := by
          by_contra hno
          push_neg at hno
          exact hall (List.all_eq_true.mpr fun g0 hg0 => by simp [hno g0 hg0])
        obtain ⟨g0, hg0mem, hg0⟩ := hex
        have hne : f1Values rest ≠ [] := by
          intro h0; rw [h0] at hg0mem; simp at hg0mem
        obtain ⟨n2, md2, hsb⟩ := specBest_isSome hne
        have hmax := specBest_max hAllrest hsb
        have hmem2 := specBest_f1_mem hsb
        have hmd2num := allF1_num hAllrest hmem2
        have hg0num := (beats_true_num hg0).1
        have h1 : qValOr0 f0 < qValOr0 g0 := (beats_iff_q hg0num hf0).mp hg0
        have h2 : qValOr0 g0 ≤ qValOr0 (dGet md2 "f1_score") :=
          le_of_not_lt fun hlt => by
            have := (beats_iff_q hg0num hmd2num).mpr hlt
            rw [hmax g0 hg0mem] at this
            exact absurd this (by simp)
        have hbeats2 : beats (dGet md2 "f1_score") f0 = true :=
          (beats_iff_q hmd2num hf0).mpr (lt_of_lt_of_le h1 h2)
        by_cases hb : beats f0 cur
        · rw [hb]
          dsimp only
          rw [ih f0 (some n0) (mkModelInfo n0 md0) hAllrest hf0, hsb]
          have hc : beats (dGet md2 "f1_score") cur = true :=
            (beats_iff_q hmd2num hcur).mpr
              (lt_trans ((beats_iff_q hf0 hcur).mp hb) (lt_of_lt_of_le h1 h2))
          dsimp only
          rw [if_pos hbeats2, if_pos hc]
        · have hbf : beats f0 cur = false := by
            rwa [Bool.not_eq_true] at hb
          rw [hbf]
          dsimp only
          rw [ih cur bm mi hAllrest hcur, hsb]

/-! ### Run structure lemmas -/

theorem dirReport_absent {fs : FSModel} {d : String} (h : fs d = none) :
    dirReport fs d = ([], none) := by
  simp [dirReport, h]

theorem dirReport_key2 {fs : FSModel} {d : String} {n mi}
    (h : (dirReport fs d).2 = some (n, mi)) : n = lastSeg d := by
  unfold dirReport at h
  cases hd : fs d with
  | none => rw [hd] at h; simp at h
  | some dir =>
    rw [hd] at h
    dsimp only at h
    rcases Option.map_eq_some'.mp h with ⟨a, _, hpair⟩
    exact (Prod.mk.inj hpair).1.symm

theorem run_lines (fs : FSModel) : (check_model_performance fs).lines =
    (dirReport fs "models/k2").1 ++ ((dirReport fs "models/kepler").1 ++
      ((dirReport fs "models/tess").1 ++ [])) ++
    ["\n=== Summary saved to model_performance_summary.json ==="] := by
  simp [check_model_performance, runDirs, model_dirs]

theorem run_summary (fs : FSModel) : (check_model_performance fs).summary =
    (dirReport fs "models/k2").2.toList ++ ((dirReport fs "models/kepler").2.toList ++
      ((dirReport fs "models/tess").2.toList ++ [])) := by
  simp [check_model_performance, runDirs, model_dirs]

theorem lookupS_skip {fs : FSModel} {k d : String} (hne : lastSeg d ≠ k)
    (l2 : List (String × List (String × PyVal))) :
    lookupS k ((dirReport fs d).2.toList ++ l2) = lookupS k l2 := by
  cases h : (dirReport fs d).2 with
  | none => simp [Option.toList]
  | some p =>
    obtain ⟨n, mi⟩ := p
    have hk := dirReport_key2 h
    subst hk
    simp [Option.toList, lookupS, hne]

theorem lookupS_hit {fs : FSModel} {d : String} {p}
    (h : (dirReport fs d).2 = some p)
    (l2 : List (String × List (String × PyVal))) :
    lookupS (lastSeg d) ((some p).toList ++ l2) = some p.2 := by
  obtain ⟨n, mi⟩ := p
  have hk := dirReport_key2 h
  subst hk
  simp [Option.toList, lookupS]

theorem run_lookup (fs : FSModel) (dpath : String) (hd : dpath ∈ model_dirs) :
    lookupS (lastSeg dpath) (check_model_performance fs).summary =
      (dirReport fs dpath).2.map Prod.snd := by
  rw [run_summary]
  have hd3 : dpath = "models/k2" ∨ dpath = "models/kepler" ∨ dpath = "models/tess" := by
    simpa [model_dirs] using hd
  rcases hd3 with rfl | rfl | rfl
  · cases h1 : (dirReport fs "models/k2").2 with
    | some p => rw [lookupS_hit h1]; rfl
    | none =>
      simp only [Option.toList_none, List.nil_append]
      rw [lookupS_skip (by decide), lookupS_skip (by decide)]
      rfl
  · rw [lookupS_skip (by decide)]
    cases h1 : (dirReport fs "models/kepler").2 with
    | some p => rw [lookupS_hit h1]; rfl
    | none =>
      simp only [Option.toList_none, List.nil_append]
      rw [lookupS_skip (by decide)]
      rfl
  · rw [lookupS_skip (by decide), lookupS_skip (by decide)]
    cases h1 : (dirReport fs "models/tess").2 with
    | some p => rw [lookupS_hit h1]; rfl
    | none => rfl

/-! ### Per-directory characterization -/

theorem fmtOK_4 {v : PyVal} (h : fmtOKB v = true) : ∃ s, formatF 4 v = .ok s := by
  unfold fmtOKB at h
  cases hf : formatF 4 v with
  | ok s => exact ⟨s, rfl⟩
  | error e => rw [hf] at h; simp at h

theorem fmtOK_mul100 {v : PyVal} (h : fmtOKB v = true) :
    ∃ s, formatF 2 (pyMul100 v) = .ok s := by
  cases v <;> simp_all [fmtOKB, formatF, pyMul100]

theorem metricLine_ok (label k n : String) (md : List (String × PyVal))
    (hlook : lookupA k (mkModelInfo n md) = some (dGet md k))
    (h : fmtOKB (dGet md k) = true) :
    ∃ s, metricLine label k (mkModelInfo n md) = .ok s := by
  unfold metricLine
  rw [hlook]
  obtain ⟨s1, h1⟩ := fmtOK_4 h
  obtain ⟨s2, h2⟩ := fmtOK_mul100 h
  dsimp only
  rw [h1]
  dsimp only
  rw [h2]
  exact ⟨_, rfl⟩

theorem cvLine_ok (n : String) (md : List (String × PyVal))
    (hm : fmtOKB (dGet md "cv_mean") = true)
    (hs : fmtOKB (dGet md "cv_std") = true) :
    ∃ s, cvLine (mkModelInfo n md) = .ok s := by
  unfold cvLine
  have l1 : lookupA "cv_mean" (mkModelInfo n md) = some (dGet md "cv_mean") := rfl
  have l2 : lookupA "cv_std" (mkModelInfo n md) = some (dGet md "cv_std") := rfl
  rw [l1]
  obtain ⟨s1, h1⟩ := fmtOK_4 hm
  obtain ⟨s2, h2⟩ := fmtOK_4 hs
  dsimp only
  rw [h1]
  dsimp only
  rw [l2]
  dsimp only
  rw [h2]
  exact ⟨_, rfl⟩

theorem metricsOKB_key {md : List (String × PyVal)} (h : metricsOKB md = true)
    {k : String} (hk : k ∈ metricKeys) : fmtOKB (dGet md k) = true :=
  List.all_eq_true.mp h k hk

theorem printBlock_ok {n : String} {md : List (String × PyVal)}
    (hfmt : metricsOKB md = true) :
    emitLines (printBlock (mkModelInfo n md)) =
      ((emitLines (printBlock (mkModelInfo n md))).1, .ok ()) := by
  obtain ⟨s1, h1⟩ := metricLine_ok "Accuracy" "accuracy" n md rfl
    (metricsOKB_key hfmt (by simp [metricKeys]))
  obtain ⟨s2, h2⟩ := metricLine_ok "Precision" "precision" n md rfl
    (metricsOKB_key hfmt (by simp [metricKeys]))
  obtain ⟨s3, h3⟩ := metricLine_ok "Recall" "recall" n md rfl
    (metricsOKB_key hfmt (by simp [metricKeys]))
  obtain ⟨s4, h4⟩ := metricLine_ok "F1-Score" "f1_score" n md rfl
    (metricsOKB_key hfmt (by simp [metricKeys]))
  obtain ⟨s5, h5⟩ := metricLine_ok "ROC AUC" "roc_auc" n md rfl
    (metricsOKB_key hfmt (by simp [metricKeys]))
  obtain ⟨s6, h6⟩ := cvLine_ok n md
    (metricsOKB_key hfmt (by simp [metricKeys]))
    (metricsOKB_key hfmt (by simp [metricKeys]))
  simp [printBlock, emitLines, h1, h2, h3, h4, h5, h6]

theorem beats_zero_of_pos {v : PyVal} (h : posNumB v = true) :
    beats v (.num 0 0) = true := by
  unfold posNumB at h
  cases hv : pyNum? v with
  | none => rw [hv] at h; simp at h
  | some p =>
    rw [hv] at h
    unfold beats
    rw [hv]
    simp only [pyNum?, decLtB]
    simp only [zero_mul, pow_zero, mul_one]
    simpa using h

theorem dirReport_found {fs : FSModel} {dpath : String} {d : Dir} {file : String}
    (hfs : fs dpath = some d) (hfind : findResults d.listing = some file) :
    dirReport fs dpath =
      ((match tryBody (lastSeg dpath) (dpath ++ "/" ++ file) d with
        | (ls, .ok _) => ls
        | (ls, .error e) => ls ++ ["Error loading " ++ (dpath ++ "/" ++ file) ++ ": " ++ e])
         ++ listingSection dpath d.listing,
       (match tryBody (lastSeg dpath) (dpath ++ "/" ++ file) d with
        | (_, .ok entry) => entry
        | (_, .error _) => none).map (fun mi => (lastSeg dpath, mi))) := by
  unfold dirReport
  rw [hfs]
  dsimp only
  rw [hfind]
  dsimp only
  rcases htb : tryBody (lastSeg dpath) (dpath ++ "/" ++ file) d with ⟨ls, r⟩
  cases r <;> rfl

theorem dirReport_notFound {fs : FSModel} {dpath : String} {d : Dir}
    (hfs : fs dpath = some d) (hfind : findResults d.listing = none) :
    dirReport fs dpath = (listingSection dpath d.listing, none) := by
  unfold dirReport
  rw [hfs]
  dsimp only
  rw [hfind]
  rfl

theorem tryBody_loadErr {mn rf : String} {d : Dir} {e : String}
    (h : d.load rf = .error e) : tryBody mn rf d = ([], .error e) := by
  unfold tryBody; rw [h]

theorem tryBody_nonDict {mn rf : String} {d : Dir} {v : PyVal}
    (h : d.load rf = .ok v) (hv : ∀ entries, v ≠ .dict entries) :
    tryBody mn rf d =
      (["\n=== " ++ mn.toUpper ++ " Model Performance ==="], .ok none) := by
  unfold tryBody
  rw [h]
  cases v with
  | dict entries => exact absurd rfl (hv entries)
  | num m e => rfl
  | bool b => rfl
  | str s => rfl
  | null => rfl
  | list l => rfl

theorem specBest_none_noF1 {entries : List (String × PyVal)}
    (h : f1Values entries = []) : specBest entries = none := by
  induction entries with
  | nil => rfl
  | cons p rest ih =>
    obtain ⟨n0, v0⟩ := p
    cases hq : qualMd v0 with
    | none =>
      rw [specBest_cons_unqual rest hq]
      rw [f1Values_cons_unqual rest hq] at h
      exact ih h
    | some q =>
      obtain ⟨md0, f0⟩ := q
      rw [f1Values_cons_qual rest hq] at h
      exact absurd h (by simp)

theorem allF1_noF1 {entries : List (String × PyVal)}
    (h : f1Values entries = []) : allF1Numeric entries = true := by
  unfold allF1Numeric
  rw [h]
  rfl

theorem tryBody_noF1 {mn rf : String} {d : Dir} {entries : List (String × PyVal)}
    (h : d.load rf = .ok (.dict entries)) (hnof1 : f1Values entries = []) :
    tryBody mn rf d =
      (["\n=== " ++ mn.toUpper ++ " Model Performance ===", "Best Model: None"],
       .error "KeyError: accuracy") := by
  unfold tryBody
  rw [h]
  dsimp only
  rw [scanBest_spec entries (.num 0 0) none [] (allF1_noF1 hnof1) rfl,
    specBest_none_noF1 hnof1]
  rfl

theorem tryBody_success {mn rf : String} {d : Dir} {entries : List (String × PyVal)}
    {n : String} {md : List (String × PyVal)}
    (hload : d.load rf = .ok (.dict entries))
    (hAll : allF1Numeric entries = true)
    (hsb : specBest entries = some (n, md))
    (hpos : posNumB (dGet md "f1_score") = true)
    (hfmt : metricsOKB md = true) :
    tryBody mn rf d =
      (["\n=== " ++ mn.toUpper ++ " Model Performance ===", "Best Model: " ++ n]
        ++ (emitLines (printBlock (mkModelInfo n md))).1,
       .ok (some (mkModelInfo n md))) := by
  unfold tryBody
  rw [hload]
  dsimp only
  rw [scanBest_spec entries (.num 0 0) none [] hAll rfl, hsb]
  dsimp only
  rw [if_pos (beats_zero_of_pos hpos)]
  dsimp only
  rw [printBlock_ok hfmt]
  rfl

/-! ### Provenance of recorded entries -/

theorem pyGt_ok_num {v cur : PyVal} {b : Bool} (hcur : (pyNum? cur).isSome)
    (h : pyGt v cur = .ok b) :
    (pyNum? v).isSome = true ∧ (b = true ↔ qValOr0 cur < qValOr0 v) := by
  obtain ⟨q, hq⟩ := Option.isSome_iff_exists.mp hcur
  cases hv : pyNum? v with
  | some p =>
    rw [pyGt_num hv hq] at h
    injection h with h2
    subst h2
    refine ⟨rfl, ?_⟩
    rw [decLtB_iff]
    simp [qValOr0, hq, hv]
  | none =>
    exfalso
    cases v <;> cases cur <;> simp_all [pyGt, pyGtF_succ, pyNum?]

theorem qValOr0_zero : qValOr0 (.num 0 0) = 0 := by
  simp [qValOr0, pyNum?, qOfDec]

theorem scanBest_pos {entries : List (String × PyVal)} :
    ∀ {cur : PyVal} {bm : Option String} {mi : List (String × PyVal)}
      {bm2 : Option String} {f2 : PyVal} {mi2 : List (String × PyVal)},
    scanBest entries cur bm mi = .ok (bm2, f2, mi2) →
    (pyNum? cur).isSome →
    (f2 = cur ∧ mi2 = mi) ∨
    ((pyNum? f2).isSome = true ∧ qValOr0 cur < qValOr0 f2 ∧
     ∃ nm md, mi2 = mkModelInfo nm md ∧ (nm, PyVal.dict md) ∈ entries ∧
       lookupA "f1_score" md = some f2) := by
  induction entries with
  | nil =>
    intro cur bm mi bm2 f2 mi2 h _
    rw [scanBest] at h
    injection h with h2
    obtain ⟨rfl, h3⟩ := Prod.mk.inj h2
    obtain ⟨rfl, rfl⟩ := Prod.mk.inj h3
    exact Or.inl ⟨rfl, rfl⟩
  | cons p rest ih =>
    intro cur bm mi bm2 f2 mi2 h hcur
    obtain ⟨n0, v0⟩ := p
    cases hq : qualMd v0 with
    | none =>
      rw [scanBest_cons_unqual hq] at h
      rcases ih h hcur with hl | ⟨hnum, hlt, nm, md, hmk, hmem, hlook⟩
      · exact Or.inl hl
      · exact Or.inr ⟨hnum, hlt, nm, md, hmk, List.mem_cons_of_mem _ hmem, hlook⟩
    | some q =>
      obtain ⟨md0, f0⟩ := q
      rw [scanBest_cons_qual hq] at h
      cases hgt : pyGt f0 cur with
      | error e => rw [hgt] at h; simp at h
      | ok b =>
        rw [hgt] at h
        obtain ⟨hf0num, hbiff⟩ := pyGt_ok_num hcur hgt
        cases b with
        | true =>
          dsimp only at h
          rcases ih h hf0num with ⟨rfl, rfl⟩ | ⟨hnum, hlt, nm, md, hmk, hmem, hlook⟩
          · refine Or.inr ⟨hf0num, hbiff.mp rfl, n0, md0, rfl, ?_, (qualMd_inv hq).2⟩
            rw [← (qualMd_inv hq).1]
            exact List.mem_cons_self _ _
          · exact Or.inr ⟨hnum, lt_trans (hbiff.mp rfl) hlt, nm, md, hmk,
              List.mem_cons_of_mem _ hmem, hlook⟩
        | false =>
          dsimp only at h
          rcases ih h hcur with hl | ⟨hnum, hlt, nm, md, hmk, hmem, hlook⟩
          · exact Or.inl hl
          · exact Or.inr ⟨hnum, hlt, nm, md, hmk, List.mem_cons_of_mem _ hmem, hlook⟩

theorem dirReport_entry {fs : FSModel} {dpath : String} {n : String}
    {mi : List (String × PyVal)}
    (h : (dirReport fs dpath).2 = some (n, mi)) :
    n = lastSeg dpath ∧
    ∃ d file entries nm md f2,
      fs dpath = some d ∧ findResults d.listing = some file ∧
      d.load (dpath ++ "/" ++ file) = .ok (.dict entries) ∧
      mi = mkModelInfo nm md ∧ (nm, PyVal.dict md) ∈ entries ∧
      lookupA "f1_score" md = some f2 ∧ (pyNum? f2).isSome = true ∧
      0 < qValOr0 f2 := by
  refine ⟨dirReport_key2 h, ?_⟩
  unfold dirReport at h
  cases hfs : fs dpath with
  | none => rw [hfs] at h; simp at h
  | some d =>
    rw [hfs] at h
    dsimp only at h
    cases hfind : findResults d.listing with
    | none => rw [hfind] at h; simp at h
    | some file =>
      rw [hfind] at h
      dsimp only at h
      rcases htb : tryBody (lastSeg dpath) (dpath ++ "/" ++ file) d with ⟨ls, r⟩
      rw [htb] at h
      cases r with
      | error e => simp at h
      | ok entry =>
        dsimp only at h
        rcases Option.map_eq_some'.mp h with ⟨mi0, hent, hpair⟩
        obtain ⟨_, rfl⟩ := Prod.mk.inj hpair
        subst hent
        unfold tryBody at htb
        cases hload : d.load (dpath ++ "/" ++ file) with
        | error e => rw [hload] at htb; simp at htb
        | ok v =>
          rw [hload] at htb
          dsimp only at htb
          cases v with
          | dict entries =>
            dsimp only at htb
            cases hscan : scanBest entries (.num 0 0) none [] with
            | error e => rw [hscan] at htb; simp at htb
            | ok trip =>
              obtain ⟨bm2, f2, mi2⟩ := trip
              rw [hscan] at htb
              dsimp only at htb
              cases hemit : (emitLines (printBlock mi2)).2 with
              | error e2 => rw [hemit] at htb; simp at htb
              | ok u =>
                rw [hemit] at htb
                have hmi2 : mi2 = mi0 := by
                  have := (Prod.mk.inj htb).2
                  injection this with h3
                  injection h3
                rcases scanBest_pos hscan rfl with ⟨_, hmi20⟩ |
                    ⟨hnum, hlt, nm, md, hmk, hmem, hlook⟩
                · exfalso
                  rw [hmi20] at hemit
                  rw [show (emitLines (printBlock [])).2 =
                      Except.error "KeyError: accuracy" from rfl] at hemit
                  exact Except.noConfusion hemit
                · refine ⟨d, file, entries, nm, md, f2, rfl, hfind, hload,
                    ?_, hmem, hlook, hnum, ?_⟩
                  · rw [← hmi2, hmk]
                  · rwa [qValOr0_zero] at hlt
          | num m e => simp at htb
          | bool b => simp at htb
          | str s2 => simp at htb
          | null => simp at htb
          | list l => simp at htb

theorem runDirs_cons_snd (fs : FSModel) (d : String) (rest : List String) :
    (runDirs fs (d :: rest)).2 =
      (dirReport fs d).2.toList ++ (runDirs fs rest).2 := rfl

theorem runDirs_mem {fs : FSModel} {ds : List String}
    {p : String × List (String × PyVal)} (h : p ∈ (runDirs fs ds).2) :
    ∃ dpath ∈ ds, (dirReport fs dpath).2 = some p := by
  induction ds with
  | nil => simp [runDirs] at h
  | cons d rest ih =>
    rw [runDirs_cons_snd] at h
    rcases List.mem_append.mp h with h1 | h2
    · exact ⟨d, List.mem_cons_self _ _,
        Option.mem_def.mp (Option.mem_toList.mp h1)⟩
    · obtain ⟨dp, hdp, hrep⟩ := ih h2
      exact ⟨dp, List.mem_cons_of_mem _ hdp, hrep⟩

theorem mkModelInfo_keys (n : String) (md : List (String × PyVal)) :
    (mkModelInfo n md).map Prod.fst = infoKeys := rfl

/-! ### Substring facts for the error line -/

theorem leadMatch_append (p t : List Char) : leadMatch (p ++ t) p = true := by
  induction p with
  | nil => cases t <;> rfl
  | cons c cs ih => simp [leadMatch, ih]

theorem mem_tails_append (a ys : List Char) : ys ∈ List.tails (a ++ ys) := by
  induction a with
  | nil =>
    cases ys with
    | nil => simp
    | cons y t => simp
  | cons x xs ih => simp [List.tails_cons, ih]

theorem strContainsB_mid (x s y : String) : strContainsB (x ++ s ++ y) s = true := by
  unfold strContainsB
  refine List.any_eq_true.mpr ⟨s.data ++ y.data, ?_, leadMatch_append _ _⟩
  have : (x ++ s ++ y).data = x.data ++ (s.data ++ y.data) := by
    simp [String.data_append]
  rw [this]
  exact mem_tails_append _ _

theorem strContainsB_end (x s : String) : strContainsB (x ++ s) s = true := by
  unfold strContainsB
  refine List.any_eq_true.mpr ⟨s.data, ?_, by simpa using leadMatch_append s.data []⟩
  have : (x ++ s).data = x.data ++ s.data := by simp [String.data_append]
  rw [this]
  exact mem_tails_append _ _

/-! ### Claims -/

/-- C7: a configured directory that does not exist on disk contributes no key
to the summary mapping and no printed lines (no header, no metrics, no
listing) to the output. -/
theorem claimC7 (fs : FSModel) (dpath : String) (h0 : dpath ∈ model_dirs)
    (h : fs dpath = none) :
    lookupS (lastSeg dpath) (check_model_performance fs).summary = none ∧
    (dirReport fs dpath).1 = [] := by
  constructor
  · rw [run_lookup fs dpath h0, dirReport_absent h]
    rfl
  · rw [dirReport_absent h]

/-- C7 witness: on the filesystem with no directories at all, `models/k2`
yields no summary key and no lines. -/
theorem claimC7_witness :
    lookupS (lastSeg "models/k2") (check_model_performance fsAbsent).summary = none ∧
    (dirReport fsAbsent "models/k2").1 = [] :=
  claimC7 fsAbsent "models/k2" (by simp [model_dirs]) rfl

/-- C8: for an existing directory, the printed section always ends with the
directory-listing block; that block lists the full entry set (a permutation)
in lexicographically sorted order, and is unchanged under any permutation of
the order the filesystem listing call returns. -/
theorem claimC8 (fs : FSModel) (dpath : String) (d : Dir) (h : fs dpath = some d) :
    (∃ pre, (dirReport fs dpath).1 = pre ++ listingSection dpath d.listing) ∧
    listingSection dpath d.listing =
      ("\nFiles in " ++ dpath ++ ":")
        :: (List.insertionSort (· ≤ ·) d.listing).map (fun f => "  - " ++ f) ∧
    List.Sorted (· ≤ ·) (List.insertionSort (· ≤ ·) d.listing) ∧
    (List.insertionSort (· ≤ ·) d.listing).Perm d.listing ∧
    (∀ l2 : List String, l2.Perm d.listing →
      listingSection dpath l2 = listingSection dpath d.listing) := by
  refine ⟨?_, rfl, List.sorted_insertionSort _ _, List.perm_insertionSort _ _, ?_⟩
  · unfold dirReport
    rw [h]
    dsimp only
    cases findResults d.listing with
    | none => exact ⟨[], rfl⟩
    | some file =>
      dsimp only
      rcases htb : tryBody (lastSeg dpath) (dpath ++ "/" ++ file) d with ⟨ls, r⟩
      cases r with
      | ok entry => exact ⟨ls, rfl⟩
      | error e =>
        exact ⟨ls ++ ["Error loading " ++ (dpath ++ "/" ++ file) ++ ": " ++ e], rfl⟩
  · intro l2 hperm
    unfold listingSection
    have hs : List.insertionSort (· ≤ ·) l2 = List.insertionSort (· ≤ ·) d.listing :=
      List.eq_of_perm_of_sorted
        ((List.perm_insertionSort _ l2).trans
          (hperm.trans (List.perm_insertionSort _ d.listing).symm))
        (List.sorted_insertionSort _ _) (List.sorted_insertionSort _ _)
    rw [hs]

/-- C8 witness: a directory whose filesystem order is `b.txt, a.txt` still
prints a sorted listing, and any permutation prints the same section. -/
theorem claimC8_witness :
    (∃ pre, (dirReport fsUnsorted "models/k2").1 =
      pre ++ listingSection "models/k2" ["b.txt", "a.txt"]) ∧
    listingSection "models/k2" ["b.txt", "a.txt"] =
      ("\nFiles in " ++ "models/k2" ++ ":")
        :: (List.insertionSort (· ≤ ·) ["b.txt", "a.txt"]).map (fun f => "  - " ++ f) ∧
    List.Sorted (· ≤ ·) (List.insertionSort (· ≤ ·) ["b.txt", "a.txt"]) ∧
    (List.insertionSort (· ≤ ·) ["b.txt", "a.txt"]).Perm ["b.txt", "a.txt"] ∧
    (∀ l2 : List String, l2.Perm ["b.txt", "a.txt"] →
      listingSection "models/k2" l2 = listingSection "models/k2" ["b.txt", "a.txt"]) :=
  claimC8 fsUnsorted "models/k2"
    { listing := ["b.txt", "a.txt"], load := fun _ => .error "unused" } rfl

/-- C3: a results artifact that raises on deserialization yields a printed
error line containing both the file path and the failure description, no
summary entry for that directory, and the run still assembles every
directory's section (the whole-run output decomposes over all three
configured directories, so processing continues). -/
theorem claimC3 (fs : FSModel) (dpath : String) (d : Dir) (file e : String)
    (h0 : dpath ∈ model_dirs) (h1 : fs dpath = some d)
    (h2 : findResults d.listing = some file)
    (h3 : d.load (dpath ++ "/" ++ file) = .error e) :
    lookupS (lastSeg dpath) (check_model_performance fs).summary = none ∧
    (dirReport fs dpath).1 =
      ["Error loading " ++ (dpath ++ "/" ++ file) ++ ": " ++ e]
        ++ listingSection dpath d.listing ∧
    strContainsB ("Error loading " ++ (dpath ++ "/" ++ file) ++ ": " ++ e)
      (dpath ++ "/" ++ file) = true ∧
    strContainsB ("Error loading " ++ (dpath ++ "/" ++ file) ++ ": " ++ e) e = true ∧
    (check_model_performance fs).lines =
      (dirReport fs "models/k2").1 ++ ((dirReport fs "models/kepler").1 ++
        ((dirReport fs "models/tess").1 ++ [])) ++
      ["\n=== Summary saved to model_performance_summary.json ==="] := by
  refine ⟨?_, ?_, ?_, ?_, run_lines fs⟩
  · rw [run_lookup fs dpath h0, dirReport_found h1 h2, tryBody_loadErr h3]
    rfl
  · rw [dirReport_found h1 h2, tryBody_loadErr h3]
    rfl
  · have := strContainsB_mid "Error loading " (dpath ++ "/" ++ file) (": " ++ e)
    rwa [show "Error loading " ++ (dpath ++ "/" ++ file) ++ (": " ++ e) =
      "Error loading " ++ (dpath ++ "/" ++ file) ++ ": " ++ e from
        (String.append_assoc _ _ _).symm] at this
  · exact strContainsB_end ("Error loading " ++ (dpath ++ "/" ++ file) ++ ": ") e

/-- C3 witness: a failing load in `models/k2` prints the error line with path
and cause, records nothing, and the run's output still decomposes over all
directories. -/
theorem claimC3_witness :
    lookupS (lastSeg "models/k2") (check_model_performance fsErr).summary = none ∧
    (dirReport fsErr "models/k2").1 =
      ["Error loading " ++ ("models/k2" ++ "/" ++ "model_results.joblib") ++ ": " ++
        "invalid load key, bad pickle data"]
        ++ listingSection "models/k2" ["model_results.joblib"] ∧
    strContainsB
      ("Error loading " ++ ("models/k2" ++ "/" ++ "model_results.joblib") ++ ": " ++
        "invalid load key, bad pickle data")
      ("models/k2" ++ "/" ++ "model_results.joblib") = true ∧
    strContainsB
      ("Error loading " ++ ("models/k2" ++ "/" ++ "model_results.joblib") ++ ": " ++
        "invalid load key, bad pickle data") "invalid load key, bad pickle data" = true ∧
    (check_model_performance fsErr).lines =
      (dirReport fsErr "models/k2").1 ++ ((dirReport fsErr "models/kepler").1 ++
        ((dirReport fsErr "models/tess").1 ++ [])) ++
      ["\n=== Summary saved to model_performance_summary.json ==="] :=
  claimC3 fsErr "models/k2"
    { listing := ["model_results.joblib"],
      load := fun _ => .error "invalid load key, bad pickle data" }
    "model_results.joblib" "invalid load key, bad pickle data"
    (by simp [model_dirs]) rfl rfl rfl

/-- C6: a results artifact that deserializes to a non-mapping value yields no
summary entry, no error line (only the header is printed before the listing),
and the directory listing still proceeds. -/
theorem claimC6 (fs : FSModel) (dpath : String) (d : Dir) (file : String)
    (v : PyVal) (h0 : dpath ∈ model_dirs) (h1 : fs dpath = some d)
    (h2 : findResults d.listing = some file)
    (h3 : d.load (dpath ++ "/" ++ file) = .ok v)
    (hv : ∀ entries, v ≠ .dict entries) :
    lookupS (lastSeg dpath) (check_model_performance fs).summary = none ∧
    (dirReport fs dpath).1 =
      ["\n=== " ++ (lastSeg dpath).toUpper ++ " Model Performance ==="]
        ++ listingSection dpath d.listing := by
  constructor
  · rw [run_lookup fs dpath h0, dirReport_found h1 h2, tryBody_nonDict h3 hv]
    rfl
  · rw [dirReport_found h1 h2, tryBody_nonDict h3 hv]

/-- C6 witness: a plain-list artifact in `models/k2` produces header plus
listing only, and no summary entry. -/
theorem claimC6_witness :
    lookupS (lastSeg "models/k2") (check_model_performance fsList).summary = none ∧
    (dirReport fsList "models/k2").1 =
      ["\n=== " ++ (lastSeg "models/k2").toUpper ++ " Model Performance ==="]
        ++ listingSection "models/k2" ["model_results.joblib"] :=
  claimC6 fsList "models/k2"
    (dirWith ["model_results.joblib"] (.list [.num 1 0, .num 2 0]))
    "model_results.joblib" (.list [.num 1 0, .num 2 0])
    (by simp [model_dirs]) rfl rfl rfl (by intro entries h; exact PyVal.noConfusion h)

/-- C2 counterexample: on a results mapping with no `f1_score` anywhere
(`fsNoF1` holds `{A: {accuracy: 0.9}}` in `models/k2`), the directory is not
a silent no-op — the run prints an error line (the metric-printing `KeyError`
is caught by the load handler), refuting "it prints no error line". -/
theorem claimC2_counterexample :
    f1Values [("A", PyVal.dict [("accuracy", PyVal.num 9 1)])] = [] ∧
    ("Error loading models/k2/model_results.joblib: KeyError: accuracy")
      ∈ (check_model_performance fsNoF1).lines ∧
    (check_model_performance fsNoF1).summary = [] :=
  ⟨rfl, by decide, rfl⟩

/-- C2 (amended): for a results artifact that deserializes to a mapping in
which no entry has an `f1_score` field, no metric values are printed and no
summary entry is recorded, and the run proceeds to the directory listing —
but it is not silent: after the header it prints `Best Model: None` and then
an error line for the results file, because `model_info['accuracy']` raises a
`KeyError` that the deserialization handler catches. -/
theorem claimC2 (fs : FSModel) (dpath : String) (d : Dir) (file : String)
    (entries : List (String × PyVal)) (h0 : dpath ∈ model_dirs)
    (h1 : fs dpath = some d) (h2 : findResults d.listing = some file)
    (h3 : d.load (dpath ++ "/" ++ file) = .ok (.dict entries))
    (h4 : f1Values entries = []) :
    lookupS (lastSeg dpath) (check_model_performance fs).summary = none ∧
    (dirReport fs dpath).1 =
      ["\n=== " ++ (lastSeg dpath).toUpper ++ " Model Performance ===",
       "Best Model: None",
       "Error loading " ++ (dpath ++ "/" ++ file) ++ ": " ++ "KeyError: accuracy"]
        ++ listingSection dpath d.listing := by
  constructor
  · rw [run_lookup fs dpath h0, dirReport_found h1 h2, tryBody_noF1 h3 h4]
    rfl
  · rw [dirReport_found h1 h2, tryBody_noF1 h3 h4]
    rfl

/-- C2 witness: the amended behavior on `fsNoF1`. -/
theorem claimC2_witness :
    lookupS (lastSeg "models/k2") (check_model_performance fsNoF1).summary = none ∧
    (dirReport fsNoF1 "models/k2").1 =
      ["\n=== " ++ (lastSeg "models/k2").toUpper ++ " Model Performance ===",
       "Best Model: None",
       "Error loading " ++ ("models/k2" ++ "/" ++ "model_results.joblib")
         ++ ": " ++ "KeyError: accuracy"]
        ++ listingSection "models/k2" ["model_results.joblib"] :=
  claimC2 fsNoF1 "models/k2"
    (dirWith ["model_results.joblib"] (.dict [("A", .dict [("accuracy", .num 9 1)])]))
    "model_results.joblib" [("A", .dict [("accuracy", .num 9 1)])]
    (by simp [model_dirs]) rfl rfl rfl rfl

/-- C1 counterexample: `fsZero` holds `{A: {f1_score: 0}}` in `models/k2` — a
mapping with an entry that is a metrics mapping containing `f1_score`, whose
maximum f1_score (per the specification's selection) is entry `A` — yet the
run records no summary entry at all, because the scan starts from the integer
0 and uses strict `>`.  This refutes C1 as universally stated. -/
theorem claimC1_counterexample :
    lookupA "f1_score" [("f1_score", PyVal.num 0 0)] = some (PyVal.num 0 0) ∧
    specBest [("A", PyVal.dict [("f1_score", PyVal.num 0 0)])] =
      some ("A", [("f1_score", PyVal.num 0 0)]) ∧
    (check_model_performance fsZero).summary = [] :=
  ⟨rfl, rfl, rfl⟩

/-- C1 (amended): for every deserialized results mapping whose participating
`f1_score` values are all numeric, whose best entry per the specification's
selection (first maximum in iteration order, strict `>` for later entries)
has an `f1_score` strictly greater than 0, and whose winning entry's present
metric fields all format as numbers, `check_model_performance` selects that
entry and records its name as `model_name` and its `f1_score` in the summary
entry for the directory. -/
theorem claimC1 (fs : FSModel) (dpath : String) (d : Dir) (file n : String)
    (entries md : List (String × PyVal))
    (h0 : dpath ∈ model_dirs) (h1 : fs dpath = some d)
    (h2 : findResults d.listing = some file)
    (h3 : d.load (dpath ++ "/" ++ file) = .ok (.dict entries))
    (h4 : allF1Numeric entries = true)
    (h5 : specBest entries = some (n, md))
    (h6 : posNumB (dGet md "f1_score") = true)
    (h7 : metricsOKB md = true) :
    lookupS (lastSeg dpath) (check_model_performance fs).summary =
      some (mkModelInfo n md) ∧
    lookupA "model_name" (mkModelInfo n md) = some (.str n) ∧
    lookupA "f1_score" (mkModelInfo n md) = some (dGet md "f1_score") := by
  refine ⟨?_, rfl, rfl⟩
  rw [run_lookup fs dpath h0, dirReport_found h1 h2,
    tryBody_success h3 h4 h5 h6 h7]
  rfl

/-- C1 witness: the specification's own worked example
`{A: {f1_score: 0.8, accuracy: 0.9}, B: {f1_score: 0.95, accuracy: 0.85}}`
selects `B` and records `model_name = "B"`, `f1_score = 0.95`. -/
theorem claimC1_witness :
    lookupS (lastSeg "models/k2") (check_model_performance fsExample).summary =
      some (mkModelInfo "B" [("f1_score", .num 95 2), ("accuracy", .num 85 2)]) ∧
    lookupA "model_name"
      (mkModelInfo "B" [("f1_score", .num 95 2), ("accuracy", .num 85 2)]) =
      some (.str "B") ∧
    lookupA "f1_score"
      (mkModelInfo "B" [("f1_score", .num 95 2), ("accuracy", .num 85 2)]) =
      some (dGet [("f1_score", .num 95 2), ("accuracy", .num 85 2)] "f1_score") :=
  claimC1 fsExample "models/k2"
    (dirWith ["model_results.joblib", "scaler.pkl"] resExample)
    "model_results.joblib" "B"
    [("A", .dict [("f1_score", .num 8 1), ("accuracy", .num 9 1)]),
     ("B", .dict [("f1_score", .num 95 2), ("accuracy", .num 85 2)])]
    [("f1_score", .num 95 2), ("accuracy", .num 85 2)]
    (by simp [model_dirs]) rfl rfl rfl rfl rfl rfl rfl

/-- C5: every recorded summary entry comes from the selected best sub-model's
metrics mapping via `mkModelInfo`, in which each of the seven optional metric
fields that is absent from the source metrics is recorded as the number 0 —
present, not absent and not null. -/
theorem claimC5 (fs : FSModel) (dpath : String) (info : List (String × PyVal))
    (h0 : dpath ∈ model_dirs)
    (h : lookupS (lastSeg dpath) (check_model_performance fs).summary = some info) :
    ∃ d file entries nm md,
      fs dpath = some d ∧ findResults d.listing = some file ∧
      d.load (dpath ++ "/" ++ file) = .ok (.dict entries) ∧
      (nm, PyVal.dict md) ∈ entries ∧ info = mkModelInfo nm md ∧
      ∀ k ∈ metricKeys, lookupA k md = none →
        lookupA k info = some (.num 0 0) := by
  rw [run_lookup fs dpath h0] at h
  rcases Option.map_eq_some'.mp h with ⟨pr, hpr, hsnd⟩
  obtain ⟨n0, mi0⟩ := pr
  obtain ⟨_, d, file, entries, nm, md, f2, hfs, hfind, hload, hmk, hmem, _, _, _⟩ :=
    dirReport_entry hpr
  subst hsnd
  refine ⟨d, file, entries, nm, md, hfs, hfind, hload, hmem, hmk, ?_⟩
  intro k hk hnone
  subst hmk
  have hz : dGet md k = .num 0 0 := by simp [dGet, hnone]
  rcases (by simpa [metricKeys] using hk :
      k = "accuracy" ∨ k = "precision" ∨ k = "recall" ∨ k = "f1_score" ∨
      k = "roc_auc" ∨ k = "cv_mean" ∨ k = "cv_std") with
    rfl | rfl | rfl | rfl | rfl | rfl | rfl
  · rw [show lookupA "accuracy" (mkModelInfo nm md) = some (dGet md "accuracy")
      from rfl, hz]
  · rw [show lookupA "precision" (mkModelInfo nm md) = some (dGet md "precision")
      from rfl, hz]
  · rw [show lookupA "recall" (mkModelInfo nm md) = some (dGet md "recall")
      from rfl, hz]
  · rw [show lookupA "f1_score" (mkModelInfo nm md) = some (dGet md "f1_score")
      from rfl, hz]
  · rw [show lookupA "roc_auc" (mkModelInfo nm md) = some (dGet md "roc_auc")
      from rfl, hz]
  · rw [show lookupA "cv_mean" (mkModelInfo nm md) = some (dGet md "cv_mean")
      from rfl, hz]
  · rw [show lookupA "cv_std" (mkModelInfo nm md) = some (dGet md "cv_std")
      from rfl, hz]

/-- C5 witness: a winner carrying only `f1_score` records every other metric
as the number 0. -/
theorem claimC5_witness :
    ∃ d file entries nm md,
      fsOnlyF1 "models/k2" = some d ∧ findResults d.listing = some file ∧
      d.load ("models/k2" ++ "/" ++ file) = .ok (.dict entries) ∧
      (nm, PyVal.dict md) ∈ entries ∧
      mkModelInfo "A" [("f1_score", PyVal.num 5 1)] = mkModelInfo nm md ∧
      ∀ k ∈ metricKeys, lookupA k md = none →
        lookupA k (mkModelInfo "A" [("f1_score", PyVal.num 5 1)]) =
          some (.num 0 0) :=
  claimC5 fsOnlyF1 "models/k2" (mkModelInfo "A" [("f1_score", PyVal.num 5 1)])
    (by simp [model_dirs]) rfl

theorem nonPos_num {v : PyVal} (h : nonPosNumB v = true) :
    (pyNum? v).isSome = true ∧ qValOr0 v ≤ 0 := by
  unfold nonPosNumB at h
  cases hv : pyNum? v with
  | none => rw [hv] at h; simp at h
  | some p =>
    rw [hv] at h
    refine ⟨rfl, ?_⟩
    have hple : p.1 ≤ 0 := by simpa using h
    have hc : (p.1 : ℚ) ≤ 0 := by exact_mod_cast hple
    have hpow : (0 : ℚ) ≤ (10 : ℚ) ^ p.2 := by positivity
    simp only [qValOr0, hv, Option.map_some, Option.getD_some]
    exact div_nonpos_iff.mpr (Or.inr ⟨hc, hpow⟩)

theorem tryBody_nonPos {mn rf : String} {d : Dir} {entries : List (String × PyVal)}
    (hload : d.load rf = .ok (.dict entries))
    (hnp : ∀ f ∈ f1Values entries, nonPosNumB f = true) :
    tryBody mn rf d =
      (["\n=== " ++ mn.toUpper ++ " Model Performance ===", "Best Model: None"],
       .error "KeyError: accuracy") := by
  have hAll : allF1Numeric entries = true := by
    unfold allF1Numeric
    exact List.all_eq_true.mpr fun f hf => (nonPos_num (hnp f hf)).1
  unfold tryBody
  rw [hload]
  dsimp only
  rw [scanBest_spec entries (.num 0 0) none [] hAll rfl]
  cases hsb : specBest entries with
  | none => rfl
  | some pr =>
    obtain ⟨n2, md2⟩ := pr
    dsimp only
    have hmem := specBest_f1_mem hsb
    have hnp2 := nonPos_num (hnp _ hmem)
    have hbf : beats (dGet md2 "f1_score") (.num 0 0) = false := by
      refine (Bool.not_eq_true _).mp fun hb => ?_
      have hlt := (beats_iff_q hnp2.1 (by rfl)).mp hb
      rw [qValOr0_zero] at hlt
      exact absurd hlt (not_lt.mpr hnp2.2)
    rw [if_neg (by rw [hbf]; exact Bool.false_ne_true)]
    rfl

/-- C9: (1) every recorded summary entry's `f1_score` value is strictly
greater than 0 under the code's own comparison (`pyGt v 0 = ok true`), and
(2) a directory whose sub-models' f1_scores are all at most 0 never produces
a summary entry — the scan starts from the integer 0 with strict `>`. -/
theorem claimC9 :
    (∀ (fs : FSModel) (dpath : String) (info : List (String × PyVal)),
      dpath ∈ model_dirs →
      lookupS (lastSeg dpath) (check_model_performance fs).summary = some info →
      ∃ v, lookupA "f1_score" info = some v ∧ pyGt v (.num 0 0) = .ok true) ∧
    (∀ (fs : FSModel) (dpath : String) (d : Dir) (file : String)
       (entries : List (String × PyVal)),
      dpath ∈ model_dirs → fs dpath = some d →
      findResults d.listing = some file →
      d.load (dpath ++ "/" ++ file) = .ok (.dict entries) →
      (∀ f ∈ f1Values entries, nonPosNumB f = true) →
      lookupS (lastSeg dpath) (check_model_performance fs).summary = none) := by
  constructor
  · intro fs dpath info h0 h
    rw [run_lookup fs dpath h0] at h
    rcases Option.map_eq_some'.mp h with ⟨pr, hpr, hsnd⟩
    obtain ⟨n0, mi0⟩ := pr
    obtain ⟨_, d, file, entries, nm, md, f2, _, _, _, hmk, _, hlook, hnum, hq⟩ :=
      dirReport_entry hpr
    subst hsnd
    refine ⟨f2, ?_, ?_⟩
    · rw [hmk, show lookupA "f1_score" (mkModelInfo nm md) =
        some (dGet md "f1_score") from rfl, dGet_of_lookup hlook]
    · obtain ⟨p, hp⟩ := Option.isSome_iff_exists.mp hnum
      rw [pyGt_num hp (show pyNum? (PyVal.num 0 0) = some (0, 0) from rfl)]
      have : decLtB (0, 0) p = true := by
        rw [decLtB_iff]
        have h1 : qOfDec (0, 0) = 0 := by simp [qOfDec]
        have h2 : qOfDec p = qValOr0 f2 := by simp [qValOr0, hp]
        rw [h1, h2]
        exact hq
      rw [this]
  · intro fs dpath d file entries h0 h1 h2 h3 hnp
    rw [run_lookup fs dpath h0, dirReport_found h1 h2, tryBody_nonPos h3 hnp]
    rfl

/-- C9 witness: the recorded `k2` entry of the worked example has
`f1_score = 0.95 > 0`, and the `{A: {f1_score: 0}}` artifact records
nothing. -/
theorem claimC9_witness :
    (∃ v, lookupA "f1_score"
        (mkModelInfo "B" [("f1_score", PyVal.num 95 2), ("accuracy", PyVal.num 85 2)]) =
        some v ∧ pyGt v (.num 0 0) = .ok true) ∧
    lookupS (lastSeg "models/k2") (check_model_performance fsZero).summary = none :=
  ⟨claimC9.1 fsExample "models/k2"
      (mkModelInfo "B" [("f1_score", PyVal.num 95 2), ("accuracy", PyVal.num 85 2)])
      (by simp [model_dirs]) rfl,
   claimC9.2 fsZero "models/k2"
      (dirWith ["model_results.joblib"] (.dict [("A", .dict [("f1_score", .num 0 0)])]))
      "model_results.joblib" [("A", .dict [("f1_score", .num 0 0)])]
      (by simp [model_dirs]) rfl rfl rfl (by decide)⟩

/-- C10: every key of the summary mapping is one of the three display names
`k2`, `kepler`, `tess`, and every value has exactly the eight keys
`model_name, accuracy, precision, recall, f1_score, roc_auc, cv_mean,
cv_std` in that order — at every point of the run (every prefix of the
directory loop) and for the full run. -/
theorem claimC10 :
    (∀ (fs : FSModel) (m : Nat) (p : String × List (String × PyVal)),
      p ∈ (runDirs fs (model_dirs.take m)).2 →
      (p.1 = "k2" ∨ p.1 = "kepler" ∨ p.1 = "tess") ∧
      p.2.map Prod.fst = infoKeys) ∧
    (∀ (fs : FSModel) (p : String × List (String × PyVal)),
      p ∈ (check_model_performance fs).summary →
      (p.1 = "k2" ∨ p.1 = "kepler" ∨ p.1 = "tess") ∧
      p.2.map Prod.fst = infoKeys) := by
  have main : ∀ (fs : FSModel) (ds : List String), (∀ x ∈ ds, x ∈ model_dirs) →
      ∀ p ∈ (runDirs fs ds).2,
      (p.1 = "k2" ∨ p.1 = "kepler" ∨ p.1 = "tess") ∧
      p.2.map Prod.fst = infoKeys := by
    intro fs ds hsub p hp
    obtain ⟨dpath, hdp, hrep⟩ := runDirs_mem hp
    obtain ⟨n, mi⟩ := p
    obtain ⟨hn, _, _, _, nm, md, _, _, _, _, hmk, _, _, _, _⟩ := dirReport_entry hrep
    constructor
    · rcases (by simpa [model_dirs] using hsub dpath hdp :
          dpath = "models/k2" ∨ dpath = "models/kepler" ∨ dpath = "models/tess") with
        rfl | rfl | rfl
      · exact Or.inl (hn.trans rfl)
      · exact Or.inr (Or.inl (hn.trans rfl))
      · exact Or.inr (Or.inr (hn.trans rfl))
    · show mi.map Prod.fst = infoKeys
      rw [hmk]
      rfl
  refine ⟨fun fs m p hp => main fs _ (fun x hx => List.take_subset _ _ hx) p hp,
    fun fs p hp => main fs model_dirs (fun x hx => hx) p ?_⟩
  rwa [show (check_model_performance fs).summary = (runDirs fs model_dirs).2 from rfl]
    at hp

/-- C10 witness: the worked example's single summary entry is keyed `k2` and
carries exactly the eight fields. -/
theorem claimC10_witness :
    (("k2", mkModelInfo "B" [("f1_score", PyVal.num 95 2), ("accuracy", PyVal.num 85 2)]).1
        = "k2" ∨
     ("k2", mkModelInfo "B" [("f1_score", PyVal.num 95 2), ("accuracy", PyVal.num 85 2)]).1
        = "kepler" ∨
     ("k2", mkModelInfo "B" [("f1_score", PyVal.num 95 2), ("accuracy", PyVal.num 85 2)]).1
        = "tess") ∧
    ("k2", mkModelInfo "B" [("f1_score", PyVal.num 95 2), ("accuracy", PyVal.num 85 2)]).2.map
      Prod.fst = infoKeys :=
  claimC10.2 fsExample
    ("k2", mkModelInfo "B" [("f1_score", PyVal.num 95 2), ("accuracy", PyVal.num 85 2)])
    (by rw [show (check_model_performance fsExample).summary =
        [("k2", mkModelInfo "B" [("f1_score", PyVal.num 95 2), ("accuracy", PyVal.num 85 2)])]
        from rfl]
        exact List.mem_singleton_self _)

/-! ### Round-trip of the summary serialization: digits -/

theorem natDigitsF_irrel : ∀ f g n, n < f → n < g →
    natDigitsF f n = natDigitsF g n := by
  intro f
  induction f with
  | zero => intro g n h; omega
  | succ f ih =>
    intro g n hf hg
    cases g with
    | zero => omega
    | succ g =>
      show natDigitsF (f + 1) n = natDigitsF (g + 1) n
      unfold natDigitsF
      by_cases h10 : n < 10
      · simp [h10]
      · have hdiv : n / 10 < n := Nat.div_lt_self (by omega) (by omega)
        simp only [h10, if_false]
        rw [ih (n / 10) (by omega) (by omega) (g := g)]

theorem natDigits_unfold (n : Nat) :
    natDigits n = if n < 10 then [Char.ofNat (48 + n)]
      else natDigits (n / 10) ++ [Char.ofNat (48 + n % 10)] := by
  show natDigitsF (n + 1) n = _
  rw [natDigitsF]
  by_cases h10 : n < 10
  · simp [h10]
  · have hdiv : n / 10 < n := Nat.div_lt_self (by omega) (by omega)
    simp only [h10, if_false]
    rw [natDigitsF_irrel n (n / 10 + 1) (n / 10) (by omega) (by omega)]
    rfl

theorem digit_lemmas : ∀ n < 10, isDigC (Char.ofNat (48 + n)) = true ∧
    digVal (Char.ofNat (48 + n)) = n := by decide

theorem natDigits_all_dig (n : Nat) : ∀ c ∈ natDigits n, isDigC c = true := by
  induction n using Nat.strong_induction_on with
  | _ n ih =>
    rw [natDigits_unfold]
    by_cases h10 : n < 10
    · simp only [h10, if_true]
      intro c hc
      rw [List.mem_singleton.mp hc]
      exact (digit_lemmas n h10).1
    · have hdiv : n / 10 < n := Nat.div_lt_self (by omega) (by omega)
      simp only [h10, if_false]
      intro c hc
      rcases List.mem_append.mp hc with h1 | h2
      · exact ih _ hdiv c h1
      · rw [List.mem_singleton.mp h2]
        exact (digit_lemmas (n % 10) (by omega)).1

theorem natDigits_ne_nil (n : Nat) : natDigits n ≠ [] := by
  rw [natDigits_unfold]
  by_cases h10 : n < 10 <;> simp [h10]

theorem dval_step (ds : List Char) : ∀ a : Nat,
    ds.foldl (fun x c => x * 10 + digVal c) a =
      a * 10 ^ ds.length + digitsVal ds := by
  induction ds with
  | nil => intro a; simp [digitsVal]
  | cons c cs ih =>
    intro a
    show cs.foldl _ (a * 10 + digVal c) = _
    rw [ih (a * 10 + digVal c)]
    have h0 : digitsVal (c :: cs) =
        (0 * 10 + digVal c) * 10 ^ cs.length + digitsVal cs := by
      show cs.foldl _ (0 * 10 + digVal c) = _
      rw [ih (0 * 10 + digVal c)]
    rw [h0, List.length_cons]
    ring

theorem digitsVal_append (xs ys : List Char) :
    digitsVal (xs ++ ys) = digitsVal xs * 10 ^ ys.length + digitsVal ys := by
  unfold digitsVal
  rw [List.foldl_append, dval_step]
  rfl

theorem digitsVal_natDigits (n : Nat) : digitsVal (natDigits n) = n := by
  induction n using Nat.strong_induction_on with
  | _ n ih =>
    rw [natDigits_unfold]
    by_cases h10 : n < 10
    · simp only [h10, if_true]
      show digitsVal [Char.ofNat (48 + n)] = n
      unfold digitsVal
      simp [(digit_lemmas n h10).2]
    · have hdiv : n / 10 < n := Nat.div_lt_self (by omega) (by omega)
      simp only [h10, if_false]
      rw [digitsVal_append, ih _ hdiv]
      have : digitsVal [Char.ofNat (48 + n % 10)] = n % 10 := by
        unfold digitsVal
        simp [(digit_lemmas (n % 10) (by omega)).2]
      rw [this]
      simp
      omega

theorem natDigits_len_le (e : Nat) (he : 1 ≤ e) :
    ∀ k, k < 10 ^ e → (natDigits k).length ≤ e := by
  induction e with
  | zero => omega
  | succ e ih =>
    intro k hk
    rw [natDigits_unfold]
    by_cases h10 : k < 10
    · simp only [h10, if_true, List.length_singleton]
      omega
    · have hdiv : k / 10 < k := Nat.div_lt_self (by omega) (by omega)
      simp only [h10, if_false, List.length_append, List.length_singleton]
      have he1 : 1 ≤ e := by
        rcases Nat.lt_or_ge e 1 with h | h
        · interval_cases e
          · simp [pow_succ, pow_zero] at hk
            omega
        · exact h
      have : k / 10 < 10 ^ e := by
        rw [pow_succ] at hk
        omega
      have := ih he1 (k / 10) this
      omega

theorem digitsVal_zeros (z : Nat) (ds : List Char) :
    digitsVal (List.replicate z '0' ++ ds) = digitsVal ds := by
  rw [digitsVal_append]
  have hz : digitsVal (List.replicate z '0') = 0 := by
    induction z with
    | zero => rfl
    | succ z ihz =>
      have h00 : (0 : Nat) * 10 + digVal '0' = 0 := rfl
      rw [List.replicate_succ]
      unfold digitsVal
      show (List.replicate z '0').foldl _ ((0 : Nat) * 10 + digVal '0') = 0
      rw [h00]
      exact ihz
  rw [hz]
  simp

theorem grabDigits_exact : ∀ (ds rest : List Char),
    (∀ c ∈ ds, isDigC c = true) →
    (∀ c ∈ rest.take 1, isDigC c = false) →
    grabDigits (ds ++ rest) = (ds, rest) := by
  intro ds
  induction ds with
  | nil =>
    intro rest _ hrest
    cases rest with
    | nil => rfl
    | cons c t =>
      have := hrest c (by simp)
      simp [grabDigits, this]
  | cons c cs ih =>
    intro rest hds hrest
    have hc := hds c (by simp)
    show grabDigits (c :: (cs ++ rest)) = _
    unfold grabDigits
    rw [ih rest (fun x hx => hds x (by simp [hx])) hrest]
    simp [hc]

theorem skipWs_cons_ws {c : Char} (cs : List Char) (h : isWsC c = true) :
    skipWs (c :: cs) = skipWs cs := by
  rw [skipWs, if_pos h]

theorem skipWs_ws_append : ∀ (ws cs : List Char), (∀ c ∈ ws, isWsC c = true) →
    skipWs (ws ++ cs) = skipWs cs := by
  intro ws
  induction ws with
  | nil => intro cs _; rfl
  | cons w t ih =>
    intro cs hws
    rw [List.cons_append, skipWs_cons_ws _ (hws w (by simp))]
    exact ih cs (fun c hc => hws c (by simp [hc]))

theorem skipWs_not {c : Char} (cs : List Char) (h : isWsC c = false) :
    skipWs (c :: cs) = c :: cs := by
  unfold skipWs
  simp [h]

theorem spacesL_ws (n : Nat) : ∀ c ∈ spacesL n, isWsC c = true := by
  intro c hc
  rw [List.eq_of_mem_replicate hc]
  rfl

theorem digit_not_keys {c : Char} (h : isDigC c = true) :
    isWsC c = false ∧ c ≠ 'n' ∧ c ≠ 't' ∧ c ≠ 'f' ∧ c ≠ '"' ∧ c ≠ '[' ∧
    c ≠ '\x7b' ∧ c ≠ '-' ∧ c ≠ ']' ∧ c ≠ '\x7d' ∧ c ≠ ',' ∧ c ≠ ':' := by
  have h1 : 48 ≤ c.toNat ∧ c.toNat ≤ 57 := by simpa [isDigC] using h
  have hne : ∀ (d : Char), (48 ≤ d.toNat ∧ d.toNat ≤ 57 → False) → c ≠ d :=
    fun d hd hcd => hd (hcd ▸ h1)
  refine ⟨?_, hne 'n' (by decide), hne 't' (by decide), hne 'f' (by decide),
    hne '"' (by decide), hne '[' (by decide), hne '\x7b' (by decide),
    hne '-' (by decide), hne ']' (by decide), hne '\x7d' (by decide),
    hne ',' (by decide), hne ':' (by decide)⟩
  simp [isWsC, hne ' ' (by decide), hne '\n' (by decide), hne '\t' (by decide),
    hne '\x0d' (by decide)]

theorem padZeros_len {e : Nat} {ds : List Char} (h : ds.length ≤ e) :
    (padZeros e ds).length = e := by
  simp [padZeros]
  omega

theorem padZeros_dig {e : Nat} {ds : List Char} (h : ∀ c ∈ ds, isDigC c = true) :
    ∀ c ∈ padZeros e ds, isDigC c = true := by
  intro c hc
  rcases List.mem_append.mp hc with h1 | h2
  · rw [List.eq_of_mem_replicate h1]; rfl
  · exact h c h2

theorem numBody_round (neg : Bool) (n e : Nat) (rest : List Char)
    (hb : ∀ c ∈ rest.take 1, isDigC c = false ∧ c ≠ '.') :
    numBody neg ((if e = 0 then natDigits n
      else natDigits (n / 10 ^ e) ++ '.' :: padZeros e (natDigits (n % 10 ^ e))) ++ rest)
      = some (mkNumPV neg n e, rest) := by
  by_cases he : e = 0
  · subst he
    rw [if_pos rfl]
    obtain ⟨c0, t0, hnd⟩ : ∃ c0 t0, natDigits n = c0 :: t0 := by
      cases hh : natDigits n with
      | nil => exact absurd hh (natDigits_ne_nil n)
      | cons a b => exact ⟨a, b, rfl⟩
    have hc0 : isDigC c0 = true := natDigits_all_dig n c0 (by rw [hnd]; simp)
    have hgrab : grabDigits (natDigits n ++ rest) = (natDigits n, rest) :=
      grabDigits_exact _ _ (natDigits_all_dig n) (fun c hc => (hb c hc).1)
    unfold numBody
    rw [hnd] at hgrab ⊢
    rw [List.cons_append] at hgrab ⊢
    dsimp only
    rw [hc0, if_pos rfl, hgrab]
    dsimp only
    cases rest with
    | nil => rw [show digitsVal (c0 :: t0) = n from hnd ▸ digitsVal_natDigits n]
    | cons c1 r2 =>
      obtain ⟨hd1, hdot1⟩ := hb c1 (by simp)
      dsimp only
      rw [if_neg hdot1, show digitsVal (c0 :: t0) = n from hnd ▸ digitsVal_natDigits n]
  · rw [if_neg he]
    have he1 : 1 ≤ e := by omega
    have hlen : (natDigits (n % 10 ^ e)).length ≤ e :=
      natDigits_len_le e he1 _ (Nat.mod_lt _ (by positivity))
    set pad := padZeros e (natDigits (n % 10 ^ e)) with hpad
    have hpadlen : pad.length = e := padZeros_len hlen
    have hpaddig : ∀ c ∈ pad, isDigC c = true :=
      padZeros_dig (natDigits_all_dig _)
    obtain ⟨c0, t0, hnd⟩ : ∃ c0 t0, natDigits (n / 10 ^ e) = c0 :: t0 := by
      cases hh : natDigits (n / 10 ^ e) with
      | nil => exact absurd hh (natDigits_ne_nil _)
      | cons a b => exact ⟨a, b, rfl⟩
    have hc0 : isDigC c0 = true := natDigits_all_dig _ c0 (by rw [hnd]; simp)
    have hgrab1 : grabDigits (natDigits (n / 10 ^ e) ++ ('.' :: (pad ++ rest))) =
        (natDigits (n / 10 ^ e), '.' :: (pad ++ rest)) :=
      grabDigits_exact _ _ (natDigits_all_dig _) (by intro c hc; simp at hc; subst hc; rfl)
    obtain ⟨c2, t2, hpd⟩ : ∃ c2 t2, pad = c2 :: t2 := by
      cases hh : pad with
      | nil => rw [hh] at hpadlen; simp at hpadlen; omega
      | cons a b => exact ⟨a, b, rfl⟩
    have hc2 : isDigC c2 = true := hpaddig c2 (by rw [hpd]; simp)
    have hgrab2 : grabDigits (pad ++ rest) = (pad, rest) :=
      grabDigits_exact _ _ hpaddig (fun c hc => (hb c hc).1)
    have harr : (natDigits (n / 10 ^ e) ++ '.' :: pad) ++ rest =
        natDigits (n / 10 ^ e) ++ ('.' :: (pad ++ rest)) := by
      simp
    rw [harr]
    unfold numBody
    rw [hnd] at hgrab1 ⊢
    rw [List.cons_append] at hgrab1 ⊢
    dsimp only
    rw [hc0, if_pos rfl, hgrab1]
    dsimp only
    rw [if_pos rfl]
    rw [hpd, List.cons_append]
    dsimp only
    rw [hc2, if_pos rfl, ← List.cons_append, ← hpd, hgrab2]
    dsimp only
    have hval : digitsVal (c0 :: t0) * 10 ^ pad.length + digitsVal pad = n := by
      rw [← hnd, digitsVal_natDigits, hpadlen, hpad, padZeros, digitsVal_zeros,
        digitsVal_natDigits, Nat.mul_comm (n / 10 ^ e) (10 ^ e)]
      exact Nat.div_add_mod n (10 ^ e)
    rw [hval, hpadlen]

/-! ### Round-trip: strings -/

theorem hexUn_hexDigit : ∀ n < 16, hexUn (hexDigit n) = some n := by decide

theorem strBody_esc : ∀ (cs rest : List Char),
    strBody (escList cs ++ '"' :: rest) = some (cs, rest) := by
  intro cs
  induction cs with
  | nil =>
    intro rest
    show strBody ('"' :: rest) = some ([], rest)
    unfold strBody
    rw [if_pos rfl]
  | cons c t ih =>
    intro rest
    have hesc : escList (c :: t) = escChar c ++ escList t := by
      simp [escList]
    rw [hesc, List.append_assoc]
    unfold escChar
    by_cases h1 : c = '"'
    · subst h1
      simp only [if_pos rfl]
      show strBody ('\\' :: '"' :: (escList t ++ '"' :: rest)) = _
      unfold strBody
      rw [if_neg (by decide), if_pos rfl]
      dsimp only
      rw [if_neg (by decide)]
      rw [show unescC '"' = some '"' from rfl]
      rw [ih rest]
      rfl
    · rw [if_neg h1]
      by_cases h2 : c = '\\'
      · subst h2
        simp only [if_pos rfl]
        show strBody ('\\' :: '\\' :: (escList t ++ '"' :: rest)) = _
        unfold strBody
        rw [if_neg (by decide), if_pos rfl]
        dsimp only
        rw [if_neg (by decide)]
        rw [show unescC '\\' = some '\\' from rfl]
        rw [ih rest]
        rfl
      · rw [if_neg h2]
        by_cases h3 : c = '\n'
        · subst h3
          simp only [if_pos rfl]
          show strBody ('\\' :: 'n' :: (escList t ++ '"' :: rest)) = _
          unfold strBody
          rw [if_neg (by decide), if_pos rfl]
          dsimp only
          rw [if_neg (by decide)]
          rw [show unescC 'n' = some '\n' from rfl]
          rw [ih rest]
          rfl
        · rw [if_neg h3]
          by_cases h4 : c = '\t'
          · subst h4
            simp only [if_pos rfl]
            show strBody ('\\' :: 't' :: (escList t ++ '"' :: rest)) = _
            unfold strBody
            rw [if_neg (by decide), if_pos rfl]
            dsimp only
            rw [if_neg (by decide)]
            rw [show unescC 't' = some '\t' from rfl]
            rw [ih rest]
            rfl
          · rw [if_neg h4]
            by_cases h5 : c = '\x0d'
            · subst h5
              simp only [if_pos rfl]
              show strBody ('\\' :: 'r' :: (escList t ++ '"' :: rest)) = _
              unfold strBody
              rw [if_neg (by decide), if_pos rfl]
              dsimp only
              rw [if_neg (by decide)]
              rw [show unescC 'r' = some '\x0d' from rfl]
              rw [ih rest]
              rfl
            · rw [if_neg h5]
              by_cases h6 : c = '\x08'
              · subst h6
                simp only [if_pos rfl]
                show strBody ('\\' :: 'b' :: (escList t ++ '"' :: rest)) = _
                unfold strBody
                rw [if_neg (by decide), if_pos rfl]
                dsimp only
                rw [if_neg (by decide)]
                rw [show unescC 'b' = some '\x08' from rfl]
                rw [ih rest]
                rfl
              · rw [if_neg h6]
                by_cases h7 : c = '\x0c'
                · subst h7
                  simp only [if_pos rfl]
                  show strBody ('\\' :: 'f' :: (escList t ++ '"' :: rest)) = _
                  unfold strBody
                  rw [if_neg (by decide), if_pos rfl]
                  dsimp only
                  rw [if_neg (by decide)]
                  rw [show unescC 'f' = some '\x0c' from rfl]
                  rw [ih rest]
                  rfl
                · rw [if_neg h7]
                  by_cases h8 : c.toNat < 32
                  · rw [if_pos h8]
                    show strBody ('\\' :: 'u' :: '0' :: '0' ::
                      hexDigit (c.toNat / 16) :: hexDigit (c.toNat % 16) ::
                      (escList t ++ '"' :: rest)) = _
                    unfold strBody
                    rw [if_neg (by decide), if_pos rfl]
                    dsimp only
                    rw [if_pos rfl]
                    rw [show hexUn '0' = some 0 from rfl,
                      hexUn_hexDigit (c.toNat / 16) (by omega),
                      hexUn_hexDigit (c.toNat % 16) (by omega)]
                    dsimp only
                    rw [ih rest]
                    have hval : ((0 * 16 + 0) * 16 + c.toNat / 16) * 16 + c.toNat % 16
                        = c.toNat := by omega
                    rw [hval, Char.ofNat_toNat]
                    rfl
                  · rw [if_neg h8]
                    show strBody (c :: (escList t ++ '"' :: rest)) = _
                    unfold strBody
                    rw [if_neg h1, if_neg h2]
                    rw [ih rest]
                    rfl

/-! ### Round-trip: layout decomposition -/

theorem str_eta (s : String) : String.mk s.data = s := rfl

theorem natDigits_head (n : Nat) :
    ∃ c t, natDigits n = c :: t ∧ isDigC c = true := by
  cases hh : natDigits n with
  | nil => exact absurd hh (natDigits_ne_nil n)
  | cons a b => exact ⟨a, b, rfl, natDigits_all_dig n a (by rw [hh]; simp)⟩

theorem expectL_exact : ∀ (lit rest : List Char), expectL lit (lit ++ rest) = some rest := by
  intro lit
  induction lit with
  | nil => intro rest; rfl
  | cons c t ih =>
    intro rest
    show expectL (c :: t) (c :: (t ++ rest)) = some rest
    unfold expectL
    rw [if_pos rfl]
    exact ih rest

theorem encItems_decomp : ∀ (xs : List PyVal) (x : PyVal) (ind ind0 : Nat)
    (rest : List Char),
    encItems ind x xs ++ ('\n' :: (spacesL ind0 ++ ']' :: rest)) =
      spacesL ind ++ (encVal ind x ++ sepItems ind ind0 xs rest) := by
  intro xs
  induction xs with
  | nil =>
    intro x ind ind0 rest
    rw [encItems]
    simp [sepItems, List.append_assoc]
  | cons y ys ih =>
    intro x ind ind0 rest
    rw [encItems]
    have := ih y ind ind0 rest
    simp only [List.append_assoc, List.cons_append] at this ⊢
    rw [this]
    simp [sepItems, List.append_assoc]

theorem encList_decomp (ind : Nat) (x : PyVal) (xs : List PyVal) (rest : List Char) :
    encVal ind (.list (x :: xs)) ++ rest =
      '[' :: '\n' :: (spacesL (ind + 2) ++ (encVal (ind + 2) x ++
        sepItems (ind + 2) ind xs rest)) := by
  rw [encVal]
  have h1 : ('\n' :: (spacesL ind ++ [']'])) ++ rest =
      '\n' :: (spacesL ind ++ ']' :: rest) := by
    simp [List.append_assoc]
  calc (('[' :: '\n' :: (encItems (ind + 2) x xs ++ '\n' :: (spacesL ind ++ [']']))) ++ rest)
      = '[' :: '\n' :: (encItems (ind + 2) x xs ++ ('\n' :: (spacesL ind ++ ']' :: rest))) := by
        simp [List.append_assoc]
    _ = _ := by rw [encItems_decomp]

theorem encPairs_decomp : ∀ (ps : List (String × PyVal)) (k : String) (v : PyVal)
    (ind ind0 : Nat) (rest : List Char),
    encPairs ind (k, v) ps ++ ('\n' :: (spacesL ind0 ++ '\x7d' :: rest)) =
      spacesL ind ++ (quoteStr k ++ ':' :: ' ' :: (encVal ind v ++
        sepPairs ind ind0 ps rest)) := by
  intro ps
  induction ps with
  | nil =>
    intro k v ind ind0 rest
    rw [encPairs]
    simp [sepPairs, List.append_assoc]
  | cons q qs ih =>
    intro k v ind ind0 rest
    obtain ⟨k2, v2⟩ := q
    rw [encPairs]
    have := ih k2 v2 ind ind0 rest
    simp only [List.append_assoc, List.cons_append] at this ⊢
    rw [this]
    simp [sepPairs, List.append_assoc]

theorem encDict_decomp (ind : Nat) (k : String) (v : PyVal)
    (ps : List (String × PyVal)) (rest : List Char) :
    encVal ind (.dict ((k, v) :: ps)) ++ rest =
      '\x7b' :: '\n' :: (spacesL (ind + 2) ++ (quoteStr k ++ ':' :: ' ' ::
        (encVal (ind + 2) v ++ sepPairs (ind + 2) ind ps rest))) := by
  rw [encVal]
  calc (('\x7b' :: '\n' :: (encPairs (ind + 2) (k, v) ps
          ++ '\n' :: (spacesL ind ++ ['\x7d']))) ++ rest)
      = '\x7b' :: '\n' :: (encPairs (ind + 2) (k, v) ps
          ++ ('\n' :: (spacesL ind ++ '\x7d' :: rest))) := by
        simp [List.append_assoc]
    _ = _ := by rw [encPairs_decomp]

theorem sepItems_split : ∀ (ys : List PyVal) (ind ind0 : Nat) (rest : List Char),
    sepItems ind ind0 ys rest = sepItems ind ind0 ys [] ++ rest := by
  intro ys
  induction ys with
  | nil => intro ind ind0 rest; simp [sepItems, List.append_assoc]
  | cons y ys2 ih =>
    intro ind ind0 rest
    show sepItems ind ind0 (y :: ys2) rest = _
    unfold sepItems
    rw [ih ind ind0 rest]
    simp [List.append_assoc]

theorem sepPairs_split : ∀ (ps : List (String × PyVal)) (ind ind0 : Nat)
    (rest : List Char),
    sepPairs ind ind0 ps rest = sepPairs ind ind0 ps [] ++ rest := by
  intro ps
  induction ps with
  | nil => intro ind ind0 rest; simp [sepPairs, List.append_assoc]
  | cons q qs ih =>
    intro ind ind0 rest
    obtain ⟨k2, v2⟩ := q
    show sepPairs ind ind0 ((k2, v2) :: qs) rest = _
    unfold sepPairs
    rw [ih ind ind0 rest]
    simp [List.append_assoc]

theorem sepItems_head (ind ind0 : Nat) (ys : List PyVal) (rest : List Char) :
    ∀ c ∈ (sepItems ind ind0 ys rest).take 1, isDigC c = false ∧ c ≠ '.' := by
  cases ys <;> simp [sepItems] <;> decide

theorem sepPairs_head (ind ind0 : Nat) (ps : List (String × PyVal)) (rest : List Char) :
    ∀ c ∈ (sepPairs ind ind0 ps rest).take 1, isDigC c = false ∧ c ≠ '.' := by
  cases ps with
  | nil => simp [sepPairs]; decide
  | cons q qs =>
    obtain ⟨k2, v2⟩ := q
    simp [sepPairs]
    decide

theorem sepItems_len_ge (ind ind0 : Nat) (ys : List PyVal) :
    2 ≤ (sepItems ind ind0 ys []).length := by
  cases ys <;> simp [sepItems]

theorem sepPairs_len_ge (ind ind0 : Nat) (ps : List (String × PyVal)) :
    2 ≤ (sepPairs ind ind0 ps []).length := by
  cases ps with
  | nil => simp [sepPairs]
  | cons q qs => obtain ⟨k2, v2⟩ := q; simp [sepPairs]

theorem encVal_head (ind : Nat) (v : PyVal) :
    ∃ c t, encVal ind v = c :: t ∧ isWsC c = false ∧ c ≠ ']' ∧ c ≠ '\x7d' := by
  cases v with
  | null => exact ⟨'n', _, by rw [encVal], by decide, by decide, by decide⟩
  | bool b =>
    cases b with
    | true => exact ⟨'t', _, by rw [encVal], by decide, by decide, by decide⟩
    | false => exact ⟨'f', _, by rw [encVal], by decide, by decide, by decide⟩
  | str s => exact ⟨'"', _, by rw [encVal]; rfl, by decide, by decide, by decide⟩
  | list xs =>
    cases xs with
    | nil => exact ⟨'[', _, by rw [encVal], by decide, by decide, by decide⟩
    | cons x t => exact ⟨'[', _, by rw [encVal], by decide, by decide, by decide⟩
  | dict ps =>
    cases ps with
    | nil => exact ⟨'\x7b', _, by rw [encVal], by decide, by decide, by decide⟩
    | cons p t => exact ⟨'\x7b', _, by rw [encVal], by decide, by decide, by decide⟩
  | num m e =>
    by_cases hm : m < 0
    · refine ⟨'-', (if e = 0 then natDigits m.natAbs
          else natDigits (m.natAbs / 10 ^ e)
            ++ '.' :: padZeros e (natDigits (m.natAbs % 10 ^ e))),
        ?_, by decide, by decide, by decide⟩
      rw [encVal]
      unfold encNum
      rw [if_pos hm]
      rfl
    · obtain ⟨c0, t0, hnd, hdig⟩ := natDigits_head
        (if e = 0 then m.natAbs else m.natAbs / 10 ^ e)
      obtain ⟨hws, _, _, _, _, _, _, _, hbr, hbc, _, _⟩ := digit_not_keys hdig
      by_cases he : e = 0
      · subst he
        refine ⟨c0, t0 ++ [], ?_, hws, hbr, hbc⟩
        rw [encVal]
        unfold encNum
        rw [if_neg hm, if_pos rfl]
        rw [if_pos rfl] at hnd
        simp [hnd]
      · refine ⟨c0, t0 ++ '.' :: padZeros e (natDigits (m.natAbs % 10 ^ e)),
          ?_, hws, hbr, hbc⟩
        rw [encVal]
        unfold encNum
        rw [if_neg hm, if_neg he]
        rw [if_neg he] at hnd
        rw [hnd]
        rfl

theorem quoteStr_len (k : String) :
    (quoteStr k).length = (escList k.data).length + 2 := by
  simp [quoteStr]

theorem quote_expand (k : String) (x : List Char) :
    quoteStr k ++ x = '"' :: (escList k.data ++ '"' :: x) := by
  simp [quoteStr, List.append_assoc]

theorem nlSpaces_ws (n : Nat) : ∀ c ∈ '\n' :: spacesL n, isWsC c = true := by
  intro c hc
  rcases List.mem_cons.mp hc with rfl | hc2
  · rfl
  · exact spacesL_ws _ c hc2

mutual
theorem rt_val : ∀ (v : PyVal) (ind fuel : Nat) (ws rest : List Char),
    (∀ c ∈ ws, isWsC c = true) →
    (∀ c ∈ rest.take 1, isDigC c = false ∧ c ≠ '.') →
    (encVal ind v).length < fuel →
    jVal fuel (ws ++ (encVal ind v ++ rest)) = some (v, rest)
  | .null, ind, fuel, ws, rest, hws, hb, hf => by
    cases fuel with
    | zero => exact absurd hf (Nat.not_lt_zero _)
    | succ f =>
      rw [show encVal ind .null ++ rest = 'n' :: (['u', 'l', 'l'] ++ rest) from
        by rw [encVal]; rfl]
      rw [jVal, skipWs_ws_append _ _ hws, skipWs_not _ (by decide)]
      dsimp only
      rw [if_pos rfl, expectL_exact]
      rfl
  | .bool true, ind, fuel, ws, rest, hws, hb, hf => by
    cases fuel with
    | zero => exact absurd hf (Nat.not_lt_zero _)
    | succ f =>
      rw [show encVal ind (.bool true) ++ rest = 't' :: (['r', 'u', 'e'] ++ rest) from
        by rw [encVal]; rfl]
      rw [jVal, skipWs_ws_append _ _ hws, skipWs_not _ (by decide)]
      dsimp only
      rw [if_neg (by decide), if_pos rfl, expectL_exact]
      rfl
  | .bool false, ind, fuel, ws, rest, hws, hb, hf => by
    cases fuel with
    | zero => exact absurd hf (Nat.not_lt_zero _)
    | succ f =>
      rw [show encVal ind (.bool false) ++ rest =
        'f' :: (['a', 'l', 's', 'e'] ++ rest) from by rw [encVal]; rfl]
      rw [jVal, skipWs_ws_append _ _ hws, skipWs_not _ (by decide)]
      dsimp only
      rw [if_neg (by decide), if_neg (by decide), if_pos rfl, expectL_exact]
      rfl
  | .str s, ind, fuel, ws, rest, hws, hb, hf => by
    cases fuel with
    | zero => exact absurd hf (Nat.not_lt_zero _)
    | succ f =>
      rw [show encVal ind (.str s) ++ rest = '"' :: (escList s.data ++ '"' :: rest)
        from by rw [encVal]; exact quote_expand s rest]
      rw [jVal, skipWs_ws_append _ _ hws, skipWs_not _ (by decide)]
      dsimp only
      rw [if_neg (by decide), if_neg (by decide), if_neg (by decide), if_pos rfl,
        strBody_esc]
      rfl
  | .num m e, ind, fuel, ws, rest, hws, hb, hf => by
    cases fuel with
    | zero => exact absurd hf (Nat.not_lt_zero _)
    | succ f =>
      by_cases hm : m < 0
      · rw [show encVal ind (.num m e) ++ rest =
          '-' :: ((if e = 0 then natDigits m.natAbs
            else natDigits (m.natAbs / 10 ^ e)
              ++ '.' :: padZeros e (natDigits (m.natAbs % 10 ^ e))) ++ rest) from by
          rw [encVal]; unfold encNum; rw [if_pos hm]; simp]
        rw [jVal, skipWs_ws_append _ _ hws, skipWs_not _ (by decide)]
        dsimp only
        rw [if_neg (by decide), if_neg (by decide), if_neg (by decide),
          if_neg (by decide), if_neg (by decide), if_neg (by decide), if_pos rfl,
          numBody_round true m.natAbs e rest hb]
        have hmk : mkNumPV true m.natAbs e = .num m e := by
          unfold mkNumPV
          rw [if_pos rfl]
          congr 1
          omega
        rw [hmk]
      · obtain ⟨c0, t0, hnd, hdig⟩ := natDigits_head
          (if e = 0 then m.natAbs else m.natAbs / 10 ^ e)
        obtain ⟨hws0, hn, ht, hfc, hq, hbk, hbc, hmn, _, _, _, _⟩ := digit_not_keys hdig
        have henc : encVal ind (.num m e) ++ rest =
            (if e = 0 then natDigits m.natAbs
              else natDigits (m.natAbs / 10 ^ e)
                ++ '.' :: padZeros e (natDigits (m.natAbs % 10 ^ e))) ++ rest := by
          rw [encVal]; unfold encNum; rw [if_neg hm]; simp
        have hT : ∃ T, (if e = 0 then natDigits m.natAbs
            else natDigits (m.natAbs / 10 ^ e)
              ++ '.' :: padZeros e (natDigits (m.natAbs % 10 ^ e))) ++ rest
            = c0 :: T := by
          by_cases he : e = 0
          · rw [if_pos he] at hnd ⊢
            rw [hnd]
            exact ⟨t0 ++ rest, rfl⟩
          · rw [if_neg he] at hnd ⊢
            rw [hnd]
            exact ⟨t0 ++ '.' :: padZeros e (natDigits (m.natAbs % 10 ^ e)) ++ rest,
              by simp⟩
        obtain ⟨T, hTeq⟩ := hT
        rw [henc, hTeq, jVal, skipWs_ws_append _ _ hws, skipWs_not _ hws0]
        dsimp only
        rw [if_neg hn, if_neg ht, if_neg hfc, if_neg hq, if_neg hbk, if_neg hbc,
          if_neg hmn, if_pos hdig, ← hTeq,
          numBody_round false m.natAbs e rest hb]
        have hmk : mkNumPV false m.natAbs e = .num m e := by
          unfold mkNumPV
          rw [if_neg (by simp)]
          congr 1
          omega
        rw [hmk]
  | .list [], ind, fuel, ws, rest, hws, hb, hf => by
    cases fuel with
    | zero => exact absurd hf (Nat.not_lt_zero _)
    | succ f =>
      have hlen : (encVal ind (.list [])).length = 2 := by rw [encVal]; rfl
      cases f with
      | zero => omega
      | succ g =>
        rw [show encVal ind (.list []) ++ rest = '[' :: (']' :: rest) from by
          rw [encVal]; rfl]
        rw [jVal, skipWs_ws_append _ _ hws, skipWs_not _ (by decide)]
        dsimp only
        rw [if_neg (by decide), if_neg (by decide), if_neg (by decide),
          if_neg (by decide), if_pos rfl]
        rw [jArr, skipWs_not _ (by decide)]
        dsimp only
        rw [if_pos rfl]
  | .list (x :: xs), ind, fuel, ws, rest, hws, hb, hf => by
    have hsplit : (encVal ind (.list (x :: xs))).length =
        2 + (ind + 2) + (encVal (ind + 2) x).length +
          (sepItems (ind + 2) ind xs []).length := by
      have h0 := congrArg List.length (encList_decomp ind x xs [])
      rw [sepItems_split xs (ind + 2) ind []] at h0
      simp only [List.append_nil, List.length_append, List.length_cons,
        spacesL, List.length_replicate] at h0
      omega
    have hx1 : 1 ≤ (encVal (ind + 2) x).length := by
      obtain ⟨c0, t0, h0, _⟩ := encVal_head (ind + 2) x
      rw [h0]; simp
    have hs2 := sepItems_len_ge (ind + 2) ind xs
    cases fuel with
    | zero => exact absurd hf (Nat.not_lt_zero _)
    | succ f =>
      cases f with
      | zero => omega
      | succ g =>
        rw [show ws ++ (encVal ind (.list (x :: xs)) ++ rest) =
          ws ++ ('[' :: '\n' :: (spacesL (ind + 2) ++ (encVal (ind + 2) x ++
            sepItems (ind + 2) ind xs rest))) from by rw [encList_decomp]]
        rw [jVal, skipWs_ws_append _ _ hws, skipWs_not _ (by decide)]
        dsimp only
        rw [if_neg (by decide), if_neg (by decide), if_neg (by decide),
          if_neg (by decide), if_pos rfl]
        rw [jArr, skipWs_cons_ws _ (by decide), skipWs_ws_append _ _ (spacesL_ws _)]
        obtain ⟨c0, t0, hx, hxws, hxbr, _⟩ := encVal_head (ind + 2) x
        rw [hx, List.cons_append, skipWs_not _ hxws]
        dsimp only
        rw [if_neg hxbr, ← List.cons_append, ← hx]
        have hrx := rt_val x (ind + 2) g [] (sepItems (ind + 2) ind xs rest)
          (by simp) (sepItems_head _ _ _ _) (by omega)
        rw [List.nil_append] at hrx
        rw [hrx]
        dsimp only
        rw [rt_more xs (ind + 2) ind g rest hb (by omega)]
  | .dict [], ind, fuel, ws, rest, hws, hb, hf => by
    cases fuel with
    | zero => exact absurd hf (Nat.not_lt_zero _)
    | succ f =>
      have hlen : (encVal ind (.dict [])).length = 2 := by rw [encVal]; rfl
      cases f with
      | zero => omega
      | succ g =>
        rw [show encVal ind (.dict []) ++ rest = '\x7b' :: ('\x7d' :: rest) from by
          rw [encVal]; rfl]
        rw [jVal, skipWs_ws_append _ _ hws, skipWs_not _ (by decide)]
        dsimp only
        rw [if_neg (by decide), if_neg (by decide), if_neg (by decide),
          if_neg (by decide), if_neg (by decide), if_pos rfl]
        rw [jObj, skipWs_not _ (by decide)]
        dsimp only
        rw [if_pos rfl]
  | .dict ((k, v) :: ps), ind, fuel, ws, rest, hws, hb, hf => by
    have hsplit : (encVal ind (.dict ((k, v) :: ps))).length =
        2 + (ind + 2) + (escList k.data).length + 2 + 2 +
          (encVal (ind + 2) v).length + (sepPairs (ind + 2) ind ps []).length := by
      have h0 := congrArg List.length (encDict_decomp ind k v ps [])
      rw [sepPairs_split ps (ind + 2) ind []] at h0
      simp only [List.append_nil, List.length_append, List.length_cons,
        spacesL, List.length_replicate, quoteStr_len] at h0
      omega
    have hv1 : 1 ≤ (encVal (ind + 2) v).length := by
      obtain ⟨c0, t0, h0, _⟩ := encVal_head (ind + 2) v
      rw [h0]; simp
    have hs2 := sepPairs_len_ge (ind + 2) ind ps
    cases fuel with
    | zero => exact absurd hf (Nat.not_lt_zero _)
    | succ f =>
      cases f with
      | zero => omega
      | succ g =>
        cases g with
        | zero => omega
        | succ h =>
          rw [show ws ++ (encVal ind (.dict ((k, v) :: ps)) ++ rest) =
            ws ++ ('\x7b' :: '\n' :: (spacesL (ind + 2) ++ ('"' ::
              (escList k.data ++ '"' :: (':' :: ' ' :: (encVal (ind + 2) v ++
                sepPairs (ind + 2) ind ps rest)))))) from by
            rw [encDict_decomp, quote_expand]]
          rw [jVal, skipWs_ws_append _ _ hws, skipWs_not _ (by decide)]
          dsimp only
          rw [if_neg (by decide), if_neg (by decide), if_neg (by decide),
            if_neg (by decide), if_neg (by decide), if_pos rfl]
          rw [jObj, skipWs_cons_ws _ (by decide),
            skipWs_ws_append _ _ (spacesL_ws _), skipWs_not _ (by decide)]
          dsimp only
          rw [if_neg (by decide), if_pos rfl]
          rw [jPair, strBody_esc]
          dsimp only
          rw [skipWs_not _ (by decide)]
          dsimp only
          rw [if_pos rfl]
          have hrv := rt_val v (ind + 2) h [' ']
            (sepPairs (ind + 2) ind ps rest) (by decide)
            (sepPairs_head _ _ _ _) (by omega)
          rw [show ' ' :: (encVal (ind + 2) v ++ sepPairs (ind + 2) ind ps rest) =
            [' '] ++ (encVal (ind + 2) v ++ sepPairs (ind + 2) ind ps rest) from rfl]
          rw [hrv]
          dsimp only
          rw [str_eta]
          rw [rt_pairs ps (ind + 2) ind (h + 1) rest hb (by omega)]
termination_by v _ _ _ _ _ _ _ => sizeOf v

theorem rt_more : ∀ (xs : List PyVal) (ind ind0 fuel : Nat) (rest : List Char),
    (∀ c ∈ rest.take 1, isDigC c = false ∧ c ≠ '.') →
    (sepItems ind ind0 xs []).length ≤ fuel →
    jArrMore fuel (sepItems ind ind0 xs rest) = some (xs, rest)
  | [], ind, ind0, fuel, rest, hb, hf => by
    have h2 := sepItems_len_ge ind ind0 ([] : List PyVal)
    cases fuel with
    | zero => omega
    | succ f =>
      rw [show sepItems ind ind0 ([] : List PyVal) rest =
        ('\n' :: spacesL ind0) ++ (']' :: rest) from by simp [sepItems]]
      rw [jArrMore, skipWs_ws_append _ _ (nlSpaces_ws ind0), skipWs_not _ (by decide)]
      dsimp only
      rw [if_pos rfl]
  | y :: ys, ind, ind0, fuel, rest, hb, hf => by
    have hlen : (sepItems ind ind0 (y :: ys) []).length =
        2 + ind + (encVal ind y).length + (sepItems ind ind0 ys []).length := by
      have h0 : sepItems ind ind0 (y :: ys) ([] : List Char) =
          ',' :: '\n' :: (spacesL ind ++ encVal ind y ++ sepItems ind ind0 ys []) := rfl
      rw [h0]
      simp only [List.length_append, List.length_cons, spacesL, List.length_replicate]
      omega
    have hy1 : 1 ≤ (encVal ind y).length := by
      obtain ⟨c0, t0, h0, _⟩ := encVal_head ind y
      rw [h0]; simp
    have hys2 := sepItems_len_ge ind ind0 ys
    cases fuel with
    | zero => omega
    | succ f =>
      rw [show sepItems ind ind0 (y :: ys) rest =
        ',' :: '\n' :: (spacesL ind ++ encVal ind y ++ sepItems ind ind0 ys rest)
        from rfl, List.append_assoc]
      rw [jArrMore, skipWs_not _ (by decide)]
      dsimp only
      rw [if_neg (by decide), if_pos rfl]
      have hry := rt_val y ind f ('\n' :: spacesL ind) (sepItems ind ind0 ys rest)
        (nlSpaces_ws ind) (sepItems_head _ _ _ _) (by omega)
      rw [show '\n' :: (spacesL ind ++ (encVal ind y ++ sepItems ind ind0 ys rest)) =
        ('\n' :: spacesL ind) ++ (encVal ind y ++ sepItems ind ind0 ys rest) from rfl]
      rw [hry]
      dsimp only
      rw [rt_more ys ind ind0 f rest hb (by omega)]
termination_by xs _ _ _ _ _ _ => sizeOf xs

theorem rt_pairs : ∀ (ps : List (String × PyVal)) (ind ind0 fuel : Nat)
    (rest : List Char),
    (∀ c ∈ rest.take 1, isDigC c = false ∧ c ≠ '.') →
    (sepPairs ind ind0 ps []).length ≤ fuel →
    jObjMore fuel (sepPairs ind ind0 ps rest) = some (ps, rest)
  | [], ind, ind0, fuel, rest, hb, hf => by
    have h2 := sepPairs_len_ge ind ind0 ([] : List (String × PyVal))
    cases fuel with
    | zero => omega
    | succ f =>
      rw [show sepPairs ind ind0 ([] : List (String × PyVal)) rest =
        ('\n' :: spacesL ind0) ++ ('\x7d' :: rest) from by simp [sepPairs]]
      rw [jObjMore, skipWs_ws_append _ _ (nlSpaces_ws ind0), skipWs_not _ (by decide)]
      dsimp only
      rw [if_pos rfl]
  | (k, v) :: ps, ind, ind0, fuel, rest, hb, hf => by
    have hlen : (sepPairs ind ind0 ((k, v) :: ps) []).length =
        2 + ind + (escList k.data).length + 2 + 2 + (encVal ind v).length +
          (sepPairs ind ind0 ps []).length := by
      have h0 : sepPairs ind ind0 ((k, v) :: ps) ([] : List Char) =
          ',' :: '\n' :: (spacesL ind ++ quoteStr k ++ ':' :: ' ' :: encVal ind v
            ++ sepPairs ind ind0 ps []) := rfl
      rw [h0]
      simp only [List.length_append, List.length_cons, spacesL,
        List.length_replicate, quoteStr_len]
      omega
    have hv1 : 1 ≤ (encVal ind v).length := by
      obtain ⟨c0, t0, h0, _⟩ := encVal_head ind v
      rw [h0]; simp
    have hps2 := sepPairs_len_ge ind ind0 ps
    cases fuel with
    | zero => omega
    | succ f =>
      cases f with
      | zero => omega
      | succ g =>
        rw [show sepPairs ind ind0 ((k, v) :: ps) rest =
          ',' :: '\n' :: (spacesL ind ++ quoteStr k ++ ':' :: ' ' :: encVal ind v
            ++ sepPairs ind ind0 ps rest) from rfl,
          List.append_assoc (spacesL ind ++ quoteStr k),
          List.cons_append, List.cons_append,
          List.append_assoc (spacesL ind), quote_expand]
        rw [jObjMore, skipWs_not _ (by decide)]
        dsimp only
        rw [if_neg (by decide), if_pos rfl]
        rw [skipWs_cons_ws _ (by decide), skipWs_ws_append _ _ (spacesL_ws _),
          skipWs_not _ (by decide)]
        dsimp only
        rw [if_pos rfl]
        rw [jPair, strBody_esc]
        dsimp only
        rw [skipWs_not _ (by decide)]
        dsimp only
        rw [if_pos rfl]
        have hrv := rt_val v ind g [' '] (sepPairs ind ind0 ps rest) (by decide)
          (sepPairs_head _ _ _ _) (by omega)
        rw [show ' ' :: (encVal ind v ++ sepPairs ind ind0 ps rest) =
          [' '] ++ (encVal ind v ++ sepPairs ind ind0 ps rest) from rfl]
        rw [hrv]
        dsimp only
        rw [str_eta]
        rw [rt_pairs ps ind ind0 (g + 1) rest hb (by omega)]
termination_by ps _ _ _ _ _ _ => sizeOf ps
end

theorem jsonParse_encTop (v : PyVal) : jsonParse (encTop v) = some v := by
  unfold jsonParse encTop
  rw [show (String.mk (encVal 0 v)).data = encVal 0 v from rfl]
  have h := rt_val v 0 ((encVal 0 v).length + 1) [] [] (by simp) (by simp)
    (by omega)
  rw [List.nil_append, List.append_nil] at h
  rw [h]
  rfl

/-- C4: the JSON text written to `model_performance_summary.json`, when parsed
back, yields exactly the in-memory summary mapping the run returned, key for
key and value for value, with numbers preserved. -/
theorem claimC4 (fs : FSModel) :
    jsonParse (check_model_performance fs).fileContent
      = some (summaryVal (check_model_performance fs).summary) :=
  jsonParse_encTop (summaryVal (check_model_performance fs).summary)
